import Mathlib

/-!
# ABAC chaincode: policy evaluation and audit engine

A shallow embedding of the chaincode `chaincode/simple/go/simple.go`, of its
packaged copy `temp_check/simple.go` and of `chaincode/abac/go/abac.go`.

Modelling conventions.

* A Go `string` is a Lean `String`, a sequence of Unicode characters; a Go
  `[]string` is a `StrSlice`, where `none` is the nil slice (ranging over a nil
  slice runs no iteration).
* A byte string handed to or produced by `encoding/json` is a `Bytes`: either the
  text of a JSON value, identified with its syntax tree, or text that is not JSON
  at all.  `json.Marshal` and `json.Unmarshal` are modelled on that tree, with the
  decoding rules of `encoding/json` for the Go types that occur in the chaincode:
  `null` leaves a string or a struct untouched and sets a slice to nil, member names
  are matched without regard to the case of ASCII letters, unknown members are ignored, a value of the
  wrong JSON type is reported as an error while the remaining members are still
  decoded, and text that is not JSON is rejected before anything is stored.
  A member that occurs twice is decoded afresh the second time.
* The ledger is a finite association list from keys to bytes.  The chaincode stub
  and the clock are the `Ctx` of a call: the transaction id, the faults that
  `GetState` and `PutState` may report, and the values read from the clock.
  A `PutState` that reports a fault leaves the ledger as it was.
* A Go `error` is the `String` of its message; `nil` is `none`.
* A results iterator is the list of the outcomes of its calls of `Next`; the stub
  call `GetQueryResult` is a parameter of `GetAccessLogs`, and `richQuery` is the stub
  of a state database that reads the query text as JSON and answers the selector of
  `GetAccessLogs` as a filter on the stored values.  A dereference of a nil pointer
  ends a call without a result.
-/

/-! ## JSON values and bytes -/

/-- Syntax tree of a JSON text.  `int` is a number literal in integer form,
`real` any other number literal. -/
inductive Json where
  | null : Json
  | bool (b : Bool) : Json
  | int (n : Int) : Json
  | real (lit : String) : Json
  | str (s : String) : Json
  | arr (items : List Json) : Json
  | obj (members : List (String × Json)) : Json

/-- A byte string as seen by `encoding/json`. -/
inductive Bytes where
  | json (j : Json) : Bytes
  | malformed (raw : String) : Bytes

/-- A Go `[]string`; `none` is the nil slice. -/
abbrev StrSlice := Option (List String)

/-- The elements a `for ... range` loop visits. -/
def StrSlice.elems : StrSlice → List String
  | none => []
  | some xs => xs

/-- Message of the error `json.Unmarshal` returns for text that is not JSON. -/
def jsonSyntaxError : String := "json: invalid character in input"

/-- Message of the error `json.Unmarshal` returns for a value of the wrong JSON type. -/
def jsonTypeError : String := "json: cannot unmarshal value into Go value"

/-- The first error wins, as `saveError` in `encoding/json`. -/
def saveError : Option String → Option String → Option String
  | some e, _ => some e
  | none, e => e

/-- Name matching of `encoding/json`: exact, else without regard to case. -/
def fieldMatches (key name : String) : Bool :=
  key == name || key.data.map Char.toLower == name.data.map Char.toLower

/-- Decode a JSON value into a Go `string` holding `cur`. -/
def decodeString (cur : String) : Json → String × Option String
  | Json.null => (cur, none)
  | Json.str s => (s, none)
  | _ => (cur, some jsonTypeError)

/-- Decode the elements of a JSON array into fresh `string` elements. -/
def decodeElems : List Json → List String × Option String
  | [] => ([], none)
  | j :: rest =>
    let r := decodeString "" j
    let rs := decodeElems rest
    (r.1 :: rs.1, saveError r.2 rs.2)

/-- Decode a JSON value into a Go `[]string` holding `cur`. -/
def decodeStrSlice (cur : StrSlice) : Json → StrSlice × Option String
  | Json.null => (none, none)
  | Json.arr items =>
    let r := decodeElems items
    (some r.1, r.2)
  | _ => (cur, some jsonTypeError)

/-- Encode a Go `string`. -/
def encodeString (s : String) : Json := Json.str s

/-- Encode a Go `[]string`: a nil slice is `null`. -/
def encodeStrSlice : StrSlice → Json
  | none => Json.null
  | some xs => Json.arr (xs.map Json.str)

/-- The call `json.Unmarshal(data, &attrs)` with `var attrs []string`. -/
def unmarshalStrSlice : Bytes → StrSlice × Option String
  | Bytes.malformed _ => (none, some jsonSyntaxError)
  | Bytes.json j => decodeStrSlice none j

/-- The text `json.Marshal` produces for a `[]string`. -/
def marshalStrSlice (xs : StrSlice) : Bytes := Bytes.json (encodeStrSlice xs)

/-! ## Records shared by the contracts -/

/-- The Go struct `User`, with JSON members `id` and `attributes`. -/
structure User where
  ID : String
  Attributes : StrSlice

/-- The Go struct `AccessPolicy`, with JSON members `resource` and `conditions`. -/
structure AccessPolicy where
  Resource : String
  Conditions : StrSlice

/-- One member of a JSON object decoded into a `User`. -/
def decodeUserMember (acc : User × Option String) (m : String × Json) : User × Option String :=
  if fieldMatches m.1 "id" then
    let r := decodeString acc.1.ID m.2
    ({ acc.1 with ID := r.1 }, saveError acc.2 r.2)
  else if fieldMatches m.1 "attributes" then
    let r := decodeStrSlice acc.1.Attributes m.2
    ({ acc.1 with Attributes := r.1 }, saveError acc.2 r.2)
  else acc

/-- Decode a JSON value into the `User` held by the target. -/
def decodeUser (cur : User) : Json → User × Option String
  | Json.null => (cur, none)
  | Json.obj members => members.foldl decodeUserMember (cur, none)
  | _ => (cur, some jsonTypeError)

/-- The call `json.Unmarshal(data, &user)` with `var user User`. -/
def unmarshalUser : Bytes → User × Option String
  | Bytes.malformed _ => (⟨"", none⟩, some jsonSyntaxError)
  | Bytes.json j => decodeUser ⟨"", none⟩ j

/-- The text `json.Marshal(user)` produces. -/
def marshalUser (u : User) : Bytes :=
  Bytes.json (Json.obj [("id", encodeString u.ID), ("attributes", encodeStrSlice u.Attributes)])

/-- One member of a JSON object decoded into an `AccessPolicy`. -/
def decodePolicyMember (acc : AccessPolicy × Option String) (m : String × Json) :
    AccessPolicy × Option String :=
  if fieldMatches m.1 "resource" then
    let r := decodeString acc.1.Resource m.2
    ({ acc.1 with Resource := r.1 }, saveError acc.2 r.2)
  else if fieldMatches m.1 "conditions" then
    let r := decodeStrSlice acc.1.Conditions m.2
    ({ acc.1 with Conditions := r.1 }, saveError acc.2 r.2)
  else acc

/-- Decode a JSON value into the `AccessPolicy` held by the target. -/
def decodePolicy (cur : AccessPolicy) : Json → AccessPolicy × Option String
  | Json.null => (cur, none)
  | Json.obj members => members.foldl decodePolicyMember (cur, none)
  | _ => (cur, some jsonTypeError)

/-- The call `json.Unmarshal(data, &policy)` with `var policy AccessPolicy`. -/
def unmarshalPolicy : Bytes → AccessPolicy × Option String
  | Bytes.malformed _ => (⟨"", none⟩, some jsonSyntaxError)
  | Bytes.json j => decodePolicy ⟨"", none⟩ j

/-- The text `json.Marshal(policy)` produces. -/
def marshalPolicy (p : AccessPolicy) : Bytes :=
  Bytes.json (Json.obj [("resource", encodeString p.Resource),
    ("conditions", encodeStrSlice p.Conditions)])

/-! ## The ledger and the chaincode stub -/

/-- World state: the records of the ledger, newest first, one per key. -/
abbrev Ledger := List (String × Bytes)

/-- The value stored under a key, if any. -/
def Ledger.get : Ledger → String → Option Bytes
  | [], _ => none
  | (k, v) :: rest, key => if k = key then some v else Ledger.get rest key

/-- The ledger without the record under a key. -/
def Ledger.erase : Ledger → String → Ledger
  | [], _ => []
  | (k, v) :: rest, key =>
    if k = key then Ledger.erase rest key else (k, v) :: Ledger.erase rest key

/-- The ledger with the record under `key` replaced by `value`. -/
def Ledger.put (st : Ledger) (key : String) (value : Bytes) : Ledger :=
  (key, value) :: st.erase key

/-- What a call sees of its transaction context and of the clock. -/
structure Ctx where
  txID : String
  getErr : String → Option String
  putErr : String → Bytes → Option String
  latencyMs : Int
  timestamp : String

/-- The stub call `GetState(key)`: the value and the error. -/
def GetState (ctx : Ctx) (st : Ledger) (key : String) : Option Bytes × Option String :=
  match ctx.getErr key with
  | some e => (none, some e)
  | none => (st.get key, none)

/-- The stub call `PutState(key, value)`: the error and the ledger afterwards. -/
def PutState (ctx : Ctx) (st : Ledger) (key : String) (value : Bytes) : Option String × Ledger :=
  match ctx.putErr key value with
  | some e => (some e, st)
  | none => (none, st.put key value)

/-! ## The simple contract (`chaincode/simple/go/simple.go`) -/

namespace Simple

/-- The Go struct `AccessLog` of the simple contract. -/
structure AccessLog where
  DocType : String
  Requester : String
  Resource : String
  Status : String
  LatencyMs : Int
  Timestamp : String

/-- The text `json.Marshal(logEntry)` produces. -/
def marshalAccessLog (e : AccessLog) : Bytes :=
  Bytes.json (Json.obj [("docType", encodeString e.DocType),
    ("requester", encodeString e.Requester), ("resource", encodeString e.Resource),
    ("status", encodeString e.Status), ("latency_ms", Json.int e.LatencyMs),
    ("timestamp", encodeString e.Timestamp)])

/-- The string `fmt.Sprintf("AccessLog: %+v", logEntry)`. -/
def formatAccessLog (e : AccessLog) : String :=
  "AccessLog: \x7bDocType:" ++ e.DocType ++ " Requester:" ++ e.Requester ++
    " Resource:" ++ e.Resource ++ " Status:" ++ e.Status ++
    " LatencyMs:" ++ toString e.LatencyMs ++ " Timestamp:" ++ e.Timestamp ++ "\x7d"

/-- The inner loop of `EvaluateAccess`: the value of `matched` when the loop over
the attributes is left. -/
def matchedLoop (cond : String) : List String → Bool
  | [] => false
  | attr :: rest => if attr = cond then true else matchedLoop cond rest

/-- The outer loop of `EvaluateAccess`: the value of `status` when the loop over the
conditions is left, `status` being "Granted" before it. -/
def statusLoop (attrs : List String) : List String → String
  | [] => "Granted"
  | cond :: rest => if !matchedLoop cond attrs then "Denied" else statusLoop attrs rest

/-- The log entry `EvaluateAccess` builds once the status is known. -/
def logEntryOf (ctx : Ctx) (user : User) (policy : AccessPolicy) (status : String) : AccessLog :=
  { DocType := "accessLog", Requester := user.ID, Resource := policy.Resource,
    Status := status, LatencyMs := ctx.latencyMs, Timestamp := ctx.timestamp }

/-- The key `fmt.Sprintf("LOG_%s_%s", userID, txID)`. -/
def logKey (userID txID : String) : String := "LOG_" ++ userID ++ "_" ++ txID

/-- The method `RegisterUser`: the error returned and the ledger afterwards. -/
def RegisterUser (ctx : Ctx) (st : Ledger) (userID : String) (attributesJSON : Bytes) :
    Option String × Ledger :=
  match unmarshalStrSlice attributesJSON with
  | (_, some err) => (some ("invalid attribute format: " ++ err), st)
  | (attrs, none) =>
    let user : User := { ID := userID, Attributes := attrs }
    let data := marshalUser user
    match PutState ctx st ("USER_" ++ userID) data with
    | (some err, st1) => (some err, st1)
    | (none, st1) => (none, st1)

/-- The method `CreatePolicy`: the error returned and the ledger afterwards. -/
def CreatePolicy (ctx : Ctx) (st : Ledger) (resource : String) (conditionsJSON : Bytes) :
    Option String × Ledger :=
  match unmarshalStrSlice conditionsJSON with
  | (_, some err) => (some ("invalid policy conditions format: " ++ err), st)
  | (conds, none) =>
    let policy : AccessPolicy := { Resource := resource, Conditions := conds }
    let data := marshalPolicy policy
    match PutState ctx st ("POLICY_" ++ resource) data with
    | (some err, st1) => (some err, st1)
    | (none, st1) => (none, st1)

/-- The method `EvaluateAccess`: the string and the error returned, and the ledger
afterwards. -/
def EvaluateAccess (ctx : Ctx) (st : Ledger) (userID resource : String) :
    (String × Option String) × Ledger :=
  match GetState ctx st ("USER_" ++ userID) with
  | (some userData, none) =>
    match unmarshalUser userData with
    | (_, some err) => (("", some ("invalid user data: " ++ err)), st)
    | (user, none) =>
      match GetState ctx st ("POLICY_" ++ resource) with
      | (some policyData, none) =>
        match unmarshalPolicy policyData with
        | (_, some err) => (("", some ("invalid policy data: " ++ err)), st)
        | (policy, none) =>
          let status := statusLoop user.Attributes.elems policy.Conditions.elems
          let logEntry := logEntryOf ctx user policy status
          let logBytes := marshalAccessLog logEntry
          match PutState ctx st (logKey userID ctx.txID) logBytes with
          | (some err, st1) => (("", some ("failed to store access log: " ++ err)), st1)
          | (none, st1) => ((formatAccessLog logEntry, none), st1)
      | _ => (("", some "policy not found"), st)
  | _ => (("", some "user not found"), st)

end Simple

/-! ## The ABAC contract (`chaincode/abac/go/abac.go`) -/

namespace Abac

/-- The method `RegisterUser`: the error returned and the ledger afterwards.
`json.Marshal` of a `User` reports no error. -/
def RegisterUser (ctx : Ctx) (st : Ledger) (userID : String) (attributesJSON : Bytes) :
    Option String × Ledger :=
  match unmarshalStrSlice attributesJSON with
  | (_, some err) => (some ("❌ Invalid attributes format: " ++ err), st)
  | (attrs, none) =>
    let user : User := { ID := userID, Attributes := attrs }
    let userBytes := marshalUser user
    let key := "USER_" ++ userID
    PutState ctx st key userBytes

/-- The method `ReadUser`: the user returned, if any, and the error. -/
def ReadUser (ctx : Ctx) (st : Ledger) (userID : String) : Option User × Option String :=
  match GetState ctx st ("USER_" ++ userID) with
  | (some userBytes, none) => (some (unmarshalUser userBytes).1, none)
  | _ => (none, some "User not found")

end Abac

/-! ## The decision without early exit -/

namespace Simple

/-- The inner loop with the `break` removed: every attribute is compared. -/
def matchedAll (cond : String) (attrs : List String) : Bool :=
  attrs.foldl (fun matched attr => if attr = cond then true else matched) false

/-- The outer loop with both `break`s removed: every condition is evaluated
against every attribute, and one unmet condition sets the status to "Denied". -/
def evaluateAll (attrs conds : List String) : String :=
  conds.foldl (fun status cond => if !matchedAll cond attrs then "Denied" else status) "Granted"

end Simple

/-! ## The audit log inside the ledger -/

/-- Whether a key lies in the `LOG_` namespace of the ledger. -/
def isLogKey (key : String) : Bool := "LOG_".data.isPrefixOf key.data

/-- The records of the ledger that lie under a `LOG_` key. -/
def Ledger.auditEntries (st : Ledger) : List (String × Bytes) :=
  st.filter (fun r => isLogKey r.1)

/-! ## The audit scan of the simple contract -/

/-- Whether an integer is a value of the Go type `int64`. -/
def isInt64 (n : Int) : Bool := decide (-9223372036854775808 ≤ n) && decide (n ≤ 9223372036854775807)

/-- Decode a JSON value into a Go `int64` holding `cur`. -/
def decodeInt64 (cur : Int) : Json → Int × Option String
  | Json.null => (cur, none)
  | Json.int n => if isInt64 n then (n, none) else (cur, some jsonTypeError)
  | _ => (cur, some jsonTypeError)

namespace Simple

/-- One member of a JSON object decoded into an `AccessLog`. -/
def decodeAccessLogMember (acc : AccessLog × Option String) (m : String × Json) :
    AccessLog × Option String :=
  if fieldMatches m.1 "docType" then
    let r := decodeString acc.1.DocType m.2
    ({ acc.1 with DocType := r.1 }, saveError acc.2 r.2)
  else if fieldMatches m.1 "requester" then
    let r := decodeString acc.1.Requester m.2
    ({ acc.1 with Requester := r.1 }, saveError acc.2 r.2)
  else if fieldMatches m.1 "resource" then
    let r := decodeString acc.1.Resource m.2
    ({ acc.1 with Resource := r.1 }, saveError acc.2 r.2)
  else if fieldMatches m.1 "status" then
    let r := decodeString acc.1.Status m.2
    ({ acc.1 with Status := r.1 }, saveError acc.2 r.2)
  else if fieldMatches m.1 "latency_ms" then
    let r := decodeInt64 acc.1.LatencyMs m.2
    ({ acc.1 with LatencyMs := r.1 }, saveError acc.2 r.2)
  else if fieldMatches m.1 "timestamp" then
    let r := decodeString acc.1.Timestamp m.2
    ({ acc.1 with Timestamp := r.1 }, saveError acc.2 r.2)
  else acc

/-- The zero value of `AccessLog`, as `var entry AccessLog` declares it. -/
def zeroAccessLog : AccessLog :=
  { DocType := "", Requester := "", Resource := "", Status := "", LatencyMs := 0,
    Timestamp := "" }

/-- Decode a JSON value into the `AccessLog` held by the target. -/
def decodeAccessLog (cur : AccessLog) : Json → AccessLog × Option String
  | Json.null => (cur, none)
  | Json.obj members => members.foldl decodeAccessLogMember (cur, none)
  | _ => (cur, some jsonTypeError)

/-- The call `json.Unmarshal(value, &entry)` with `var entry AccessLog`. -/
def unmarshalAccessLog : Bytes → AccessLog × Option String
  | Bytes.malformed _ => (zeroAccessLog, some jsonSyntaxError)
  | Bytes.json j => decodeAccessLog zeroAccessLog j

end Simple

/-- A query result: the key and the value of a record. -/
abbrev QueryResult := String × Bytes

/-- A results iterator, as the outcomes of the calls of `Next` made while `HasNext`
holds: `some` is a query result, `none` is a call that reports an error and yields
the nil result. -/
abbrev Iterator := List (Option QueryResult)

namespace Simple

/-- How a call of `GetAccessLogs` ends: it returns a list of entries and an error,
or it stops on the dereference of a nil query result.  The nil slice of entries is
the empty list. -/
inductive ScanResult where
  | returned (logs : List AccessLog) (err : Option String) : ScanResult
  | nilDereference : ScanResult

/-- The query string `GetAccessLogs` builds for a user. -/
def selectorQuery (userID : String) : String :=
  "\x7b\x22selector\x22:\x7b\x22docType\x22:\x22accessLog\x22,\x22requester\x22:\x22" ++
    userID ++ "\x22\x7d\x7d"

/-- The loop of `GetAccessLogs` over the iterator, `logs` being the entries
appended so far. -/
def scanLoop : Iterator → List AccessLog → ScanResult
  | [], logs => ScanResult.returned logs none
  | none :: _, _ => ScanResult.nilDereference
  | some queryResponse :: rest, logs =>
    scanLoop rest (logs ++ [(unmarshalAccessLog queryResponse.2).1])

/-- The method `GetAccessLogs`; `getQueryResult` is the stub call `GetQueryResult`,
giving the iterator and the error for a query string. -/
def GetAccessLogs (getQueryResult : String → Iterator × Option String) (userID : String) :
    ScanResult :=
  let query := selectorQuery userID
  match getQueryResult query with
  | (_, some err) => ScanResult.returned [] (some ("failed to query access logs: " ++ err))
  | (resultsIterator, none) => scanLoop resultsIterator []

end Simple

/-! ## The rich query of the state database -/

/-- The first member of a JSON object with a given name. -/
def memberOf : List (String × Json) → String → Option Json
  | [], _ => none
  | (k, v) :: rest, name => if k = name then some v else memberOf rest name

/-- Whether a stored value is selected for a requester: the value is a JSON object
whose `docType` is "accessLog" and whose `requester` is that string. -/
def selects (requester : String) : Bytes → Bool
  | Bytes.json (Json.obj members) =>
    match memberOf members "docType", memberOf members "requester" with
    | some (Json.str d), some (Json.str r) => decide (d = "accessLog") && decide (r = requester)
    | _, _ => false
  | _ => false

/-- The character a two-character escape of a JSON string stands for; `none` for
any other character after the backslash (the escape `u` with its four digits is
not covered). -/
def unescape (c : Char) : Option Char :=
  if c = Char.ofNat 34 then some (Char.ofNat 34)
  else if c = Char.ofNat 92 then some (Char.ofNat 92)
  else if c = Char.ofNat 47 then some (Char.ofNat 47)
  else if c = Char.ofNat 98 then some (Char.ofNat 8)
  else if c = Char.ofNat 102 then some (Char.ofNat 12)
  else if c = Char.ofNat 110 then some (Char.ofNat 10)
  else if c = Char.ofNat 114 then some (Char.ofNat 13)
  else if c = Char.ofNat 116 then some (Char.ofNat 9)
  else none

/-- Read a JSON string literal from the character after its opening quote: the
string it denotes and the text after its closing quote.  `escaped` tells that the
character before was a backslash.  The result is `none` when the closing quote is
missing, a control character is not escaped, or an escape is not covered. -/
def scanStringBody : Bool → List Char → Option (List Char × List Char)
  | _, [] => none
  | true, c :: rest =>
    match unescape c with
    | none => none
    | some d =>
      match scanStringBody false rest with
      | none => none
      | some r => some (d :: r.1, r.2)
  | false, c :: rest =>
    if c = Char.ofNat 34 then some ([], rest)
    else if c = Char.ofNat 92 then scanStringBody true rest
    else if c.toNat < 32 then none
    else
      match scanStringBody false rest with
      | none => none
      | some r => some (c :: r.1, r.2)

/-- The text that follows a prefix, when the text starts with it. -/
def dropPrefix : List Char → List Char → Option (List Char)
  | [], text => some text
  | _ :: _, [] => none
  | p :: ps, c :: cs => if p = c then dropPrefix ps cs else none

/-- The text of the selector of `GetAccessLogs` up to the opening quote of the
requester. -/
def selectorHead : String :=
  "\x7b\x22selector\x22:\x7b\x22docType\x22:\x22accessLog\x22,\x22requester\x22:\x22"

/-- The text of the selector of `GetAccessLogs` after the closing quote of the
requester. -/
def selectorTail : String := "\x7d\x7d"

/-- The requester a query text asks for, as a JSON reader sees it: the text is the
selector of `GetAccessLogs` around one JSON string literal, and the requester is the
string that literal denotes.  `none` for any other text. -/
def parseSelector (query : String) : Option String :=
  match dropPrefix selectorHead.data query.data with
  | none => none
  | some text =>
    match scanStringBody false text with
    | none => none
    | some r => if r.2 = selectorTail.data then some (String.mk r.1) else none

/-- The stub call `GetQueryResult` on a ledger whose state database reads the query
text as JSON.  For a text that is the selector of `GetAccessLogs` around one string
literal it reports no error and its iterator yields, in the order of the ledger,
the records whose `docType` is "accessLog" and whose `requester` is the string the
literal denotes.  What it answers to any other text is not fixed here: it is the
parameter `other`. -/
def richQuery (other : String → Iterator × Option String) (st : Ledger) (query : String) :
    Iterator × Option String :=
  match parseSelector query with
  | some requester => ((st.filter (fun r => selects requester r.2)).map some, none)
  | none => other query

/-- Whether a character stands for itself inside a JSON string literal: it is not
the quote, not the backslash and not a control character. -/
def plainChar (c : Char) : Bool :=
  !decide (c = Char.ofNat 34) && !decide (c = Char.ofNat 92) && decide (32 ≤ c.toNat)

/-- Whether a user id stands for itself when spliced between two quotes. -/
def plainId (userID : String) : Bool := userID.data.all plainChar

/-! ## Histories of the simple contract -/

namespace Simple

/-- One invocation of the simple contract that may write to the ledger. -/
inductive Op where
  | registerUser (ctx : Ctx) (userID : String) (attributesJSON : Bytes) : Op
  | createPolicy (ctx : Ctx) (resource : String) (conditionsJSON : Bytes) : Op
  | evaluateAccess (ctx : Ctx) (userID resource : String) : Op

/-- The ledger after one invocation. -/
def Op.apply (st : Ledger) : Op → Ledger
  | Op.registerUser ctx userID attributesJSON => (RegisterUser ctx st userID attributesJSON).2
  | Op.createPolicy ctx resource conditionsJSON => (CreatePolicy ctx st resource conditionsJSON).2
  | Op.evaluateAccess ctx userID resource => (EvaluateAccess ctx st userID resource).2

/-- The ledger after a sequence of invocations, the first of them run first. -/
def runOps (st : Ledger) (ops : List Op) : Ledger := ops.foldl Op.apply st

end Simple

/-! ## The decision and the audit entry of the ABAC contract -/

/-- The Go struct `AccessRequest`, with JSON members `userID` and `resource`. -/
structure AccessRequest where
  UserID : String
  Resource : String

/-- One member of a JSON object decoded into an `AccessRequest`. -/
def decodeRequestMember (acc : AccessRequest × Option String) (m : String × Json) :
    AccessRequest × Option String :=
  if fieldMatches m.1 "userID" then
    let r := decodeString acc.1.UserID m.2
    ({ acc.1 with UserID := r.1 }, saveError acc.2 r.2)
  else if fieldMatches m.1 "resource" then
    let r := decodeString acc.1.Resource m.2
    ({ acc.1 with Resource := r.1 }, saveError acc.2 r.2)
  else acc

/-- Decode a JSON value into the `AccessRequest` held by the target. -/
def decodeRequest (cur : AccessRequest) : Json → AccessRequest × Option String
  | Json.null => (cur, none)
  | Json.obj members => members.foldl decodeRequestMember (cur, none)
  | _ => (cur, some jsonTypeError)

/-- The call `json.Unmarshal(data, &request)` with `var request AccessRequest`. -/
def unmarshalRequest : Bytes → AccessRequest × Option String
  | Bytes.malformed _ => (⟨"", ""⟩, some jsonSyntaxError)
  | Bytes.json j => decodeRequest ⟨"", ""⟩ j

/-- The text `json.Marshal` produces for an `AccessRequest`. -/
def marshalRequest (r : AccessRequest) : Bytes :=
  Bytes.json (Json.obj [("userID", encodeString r.UserID), ("resource", encodeString r.Resource)])

namespace Abac

/-- The Go struct `AccessLog` of the ABAC contract. -/
structure AccessLog where
  Requester : String
  Resource : String
  Status : String

/-- The text `json.Marshal(log)` produces. -/
def marshalAccessLog (e : AccessLog) : Bytes :=
  Bytes.json (Json.obj [("requester", encodeString e.Requester),
    ("resource", encodeString e.Resource), ("status", encodeString e.Status)])

/-- The function `contains`. -/
def contains (list : List String) (condition : String) : Bool :=
  match list with
  | [] => false
  | attr :: rest => if attr = condition then true else contains rest condition

/-- The key `"LOG_" + userID + "_" + resource` of `logAccess`. -/
def logKey (userID resource : String) : String := "LOG_" ++ userID ++ "_" ++ resource

/-- The method `logAccess`: the ledger afterwards.  The result of `PutState` is
dropped. -/
def logAccess (ctx : Ctx) (st : Ledger) (userID resource status : String) : Ledger :=
  let log : AccessLog := { Requester := userID, Resource := resource, Status := status }
  let logBytes := marshalAccessLog log
  (PutState ctx st (logKey userID resource) logBytes).2

/-- The loop of `RequestAccess` over the conditions of the policy, with the two
statements that follow it: what the method returns and the ledger afterwards. -/
def requestLoop (ctx : Ctx) (st : Ledger) (user : User) (resource : String) :
    List String → (String × Option String) × Ledger
  | [] => (("Access Granted", none), logAccess ctx st user.ID resource "Granted")
  | cond :: rest =>
    if !contains user.Attributes.elems cond then
      (("Denied", none), logAccess ctx st user.ID resource "Denied")
    else requestLoop ctx st user resource rest

/-- The method `RequestAccess`: the string and the error returned, and the ledger
afterwards.  The errors of the two calls of `json.Unmarshal` on stored bytes are
dropped. -/
def RequestAccess (ctx : Ctx) (st : Ledger) (requestJSON : Bytes) :
    (String × Option String) × Ledger :=
  match unmarshalRequest requestJSON with
  | (_, some err) => (("", some ("Invalid request format: " ++ err)), st)
  | (request, none) =>
    match GetState ctx st ("USER_" ++ request.UserID) with
    | (some userBytes, none) =>
      let user := (unmarshalUser userBytes).1
      match GetState ctx st ("POLICY_" ++ request.Resource) with
      | (some policyBytes, none) =>
        let policy := (unmarshalPolicy policyBytes).1
        requestLoop ctx st user request.Resource policy.Conditions.elems
      | _ => (("Denied", some "No policy found for resource"), st)
    | _ => (("Denied", some "User not found"), st)

end Abac

/-! ## The packaged copy of the simple contract (`temp_check/simple.go`) -/

namespace TempCheck

/-- The inner loop of `EvaluateAccess` in the packaged copy. -/
def matchedLoop (cond : String) : List String → Bool
  | [] => false
  | attr :: rest => if attr = cond then true else matchedLoop cond rest

/-- The outer loop of `EvaluateAccess` in the packaged copy. -/
def statusLoop (attrs : List String) : List String → String
  | [] => "Granted"
  | cond :: rest => if !matchedLoop cond attrs then "Denied" else statusLoop attrs rest

/-- The method `EvaluateAccess` of the packaged copy.  Its struct `AccessLog`, the
log key and the returned string are declared as in `simple.go`. -/
def EvaluateAccess (ctx : Ctx) (st : Ledger) (userID resource : String) :
    (String × Option String) × Ledger :=
  match GetState ctx st ("USER_" ++ userID) with
  | (_, some err) => (("", some ("failed to retrieve user: " ++ err)), st)
  | (none, none) => (("", some "user not found"), st)
  | (some userData, none) =>
    match unmarshalUser userData with
    | (_, some err) => (("", some ("invalid user data: " ++ err)), st)
    | (user, none) =>
      match GetState ctx st ("POLICY_" ++ resource) with
      | (_, some err) => (("", some ("failed to retrieve policy: " ++ err)), st)
      | (none, none) => (("", some "policy not found"), st)
      | (some policyData, none) =>
        match unmarshalPolicy policyData with
        | (_, some err) => (("", some ("invalid policy data: " ++ err)), st)
        | (policy, none) =>
          let status := statusLoop user.Attributes.elems policy.Conditions.elems
          let logEntry := Simple.logEntryOf ctx user policy status
          let logBytes := Simple.marshalAccessLog logEntry
          match PutState ctx st (Simple.logKey userID ctx.txID) logBytes with
          | (some err, st1) => (("", some ("failed to store access log: " ++ err)), st1)
          | (none, st1) => ((Simple.formatAccessLog logEntry, none), st1)

end TempCheck

/-! ## The shape of the records the simple contract writes -/

namespace Simple

/-- A record as the simple contract writes it: a user under the key of its id, a
policy under the key of its resource, or a log entry of a user under a log key of
that user. -/
def Written (key : String) (value : Bytes) : Prop :=
  (∃ attrs : StrSlice, ∃ id : String, key = "USER_" ++ id ∧ value = marshalUser ⟨id, attrs⟩) ∨
  (∃ conds : StrSlice, ∃ res : String,
    key = "POLICY_" ++ res ∧ value = marshalPolicy ⟨res, conds⟩) ∨
  (∃ e : AccessLog, ∃ txID : String, key = logKey e.Requester txID ∧
    value = marshalAccessLog e ∧ e.DocType = "accessLog")

/-- Every record of the ledger has the shape the simple contract writes. -/
def AllWritten (st : Ledger) : Prop := ∀ r ∈ st, Written r.1 r.2

end Simple

/-! ## Sample contexts and ledgers -/

/-- A context whose stub reports no fault. -/
def ctxOk (txID : String) : Ctx :=
  { txID := txID, getErr := fun _ => none, putErr := fun _ _ => none,
    latencyMs := 0, timestamp := "2024-05-01T10:00:00Z" }

/-- A ledger on which alice and the policies of the repository and of the vault
have been registered. -/
def ledgerAlice : Ledger :=
  [("POLICY_vault", marshalPolicy ⟨"vault", some ["level:5"]⟩),
   ("POLICY_open", marshalPolicy ⟨"open", some []⟩),
   ("POLICY_repo", marshalPolicy ⟨"repo", some ["dept:eng"]⟩),
   ("USER_alice", marshalUser ⟨"alice", some ["dept:eng", "level:3"]⟩)]

/-- A context whose stub rejects every write. -/
def ctxPutFails (txID : String) : Ctx :=
  { txID := txID, getErr := fun _ => none, putErr := fun _ _ => some "ledger write refused",
    latencyMs := 0, timestamp := "2024-05-01T10:00:00Z" }

/-- A context whose stub fails every read. -/
def ctxGetFails (txID : String) : Ctx :=
  { txID := txID, getErr := fun _ => some "ledger read failed", putErr := fun _ _ => none,
    latencyMs := 0, timestamp := "2024-05-01T10:00:00Z" }

/-- A ledger whose records for carol and for the archive are not JSON. -/
def ledgerCorrupt : Ledger :=
  [("POLICY_archive", Bytes.malformed "\x7bresource"),
   ("USER_carol", Bytes.malformed "carol;dept:eng"),
   ("USER_alice", marshalUser ⟨"alice", some ["dept:eng", "level:3"]⟩)]

/-- A context whose stub accepts every write except those under a `LOG_` key. -/
def ctxLogRefused (txID : String) : Ctx :=
  { txID := txID, getErr := fun _ => none,
    putErr := fun key _ => if isLogKey key then some "ledger write refused" else none,
    latencyMs := 0, timestamp := "2024-05-01T10:00:00Z" }

/-- A ledger of the ABAC contract on which alice is registered with two attributes. -/
def ledgerAbac : Ledger :=
  [("USER_alice", marshalUser ⟨"alice", some ["dept:eng", "level:3"]⟩)]

/-- A history of the simple contract: alice and bob are registered, two policies
are created, and alice and bob are evaluated in three transactions. -/
def opsAlice : List Simple.Op :=
  [Simple.Op.registerUser (ctxOk "tx1") "alice" (marshalStrSlice (some ["dept:eng", "level:3"])),
   Simple.Op.createPolicy (ctxOk "tx2") "repo" (marshalStrSlice (some ["dept:eng"])),
   Simple.Op.createPolicy (ctxOk "tx3") "vault" (marshalStrSlice (some ["level:5"])),
   Simple.Op.registerUser (ctxOk "tx4") "bob" (marshalStrSlice none),
   Simple.Op.evaluateAccess (ctxOk "tx5") "alice" "repo",
   Simple.Op.evaluateAccess (ctxOk "tx6") "bob" "repo",
   Simple.Op.evaluateAccess (ctxOk "tx7") "alice" "vault"]

/-- A ledger of the ABAC contract with alice and the policy of the repository. -/
def ledgerAbacRepo : Ledger :=
  [("POLICY_repo", marshalPolicy ⟨"repo", some ["dept:eng"]⟩),
   ("USER_alice", marshalUser ⟨"alice", some ["dept:eng", "level:3"]⟩)]

/-- The request of alice for the repository. -/
def requestAliceRepo : Bytes := marshalRequest ⟨"alice", "repo"⟩

/-- A stub whose query yields one record that is not JSON. -/
def queryCorrupt : String → Iterator × Option String :=
  fun _ => ([some ("LOG_alice_tx1", Bytes.malformed "accessLog;alice")], none)

/-- A stub whose query yields one record and then fails in `Next`. -/
def queryNextFails : String → Iterator × Option String :=
  fun _ => ([some ("LOG_alice_tx1", Bytes.malformed "accessLog;alice"), none], none)

/-- A user id with two backslashes: the characters a, backslash, backslash, b. -/
def idEscaped : String := "a\x5c\x5cb"

/-- The user id the JSON string literal with body `idEscaped` denotes: the
characters a, backslash, b. -/
def idDenoted : String := "a\x5cb"

/-- A history in which both users are registered and the open policy is created. -/
def opsEscaped : List Simple.Op :=
  [Simple.Op.registerUser (ctxOk "tx1") idEscaped (marshalStrSlice (some ["dept:eng"])),
   Simple.Op.registerUser (ctxOk "tx2") idDenoted (marshalStrSlice (some ["dept:ops"])),
   Simple.Op.createPolicy (ctxOk "tx3") "open" (marshalStrSlice (some []))]

/-- A stub that refuses every query text. -/
def queryRefused : String → Iterator × Option String :=
  fun _ => ([], some "invalid query")

/-! ## Lemmas on the codec -/

theorem decodeElems_map_str (xs : List String) :
    decodeElems (xs.map Json.str) = (xs, none) := by
  induction xs with
  | nil => rfl
  | cons x rest ih => simp [decodeElems, decodeString, ih, saveError]

theorem decodeStrSlice_encode (cur xs : StrSlice) :
    decodeStrSlice cur (encodeStrSlice xs) = (xs, none) := by
  cases xs with
  | none => rfl
  | some l => simp [encodeStrSlice, decodeStrSlice, decodeElems_map_str]

theorem unmarshalStrSlice_marshal (xs : StrSlice) :
    unmarshalStrSlice (marshalStrSlice xs) = (xs, none) := by
  simp [unmarshalStrSlice, marshalStrSlice, decodeStrSlice_encode]

theorem unmarshalUser_marshal (u : User) : unmarshalUser (marshalUser u) = (u, none) := by
  have h1 : fieldMatches "id" "id" = true := by decide
  have h2 : fieldMatches "attributes" "id" = false := by decide
  have h3 : fieldMatches "attributes" "attributes" = true := by decide
  simp [unmarshalUser, marshalUser, decodeUser, decodeUserMember, h1, h2, h3,
    decodeStrSlice_encode, encodeString, decodeString, saveError]

theorem unmarshalPolicy_marshal (p : AccessPolicy) :
    unmarshalPolicy (marshalPolicy p) = (p, none) := by
  have h1 : fieldMatches "resource" "resource" = true := by decide
  have h2 : fieldMatches "conditions" "resource" = false := by decide
  have h3 : fieldMatches "conditions" "conditions" = true := by decide
  simp [unmarshalPolicy, marshalPolicy, decodePolicy, decodePolicyMember, h1, h2, h3,
    decodeStrSlice_encode, encodeString, decodeString, saveError]

/-! ## Lemmas on the ledger -/

theorem Ledger.get_erase_ne (st : Ledger) (key k : String) (h : k ≠ key) :
    (st.erase key).get k = st.get k := by
  induction st with
  | nil => rfl
  | cons r rest ih =>
    obtain ⟨k0, v0⟩ := r
    by_cases hk : k0 = key
    · subst hk
      have hne : ¬ k0 = k := fun e => h e.symm
      simp [Ledger.erase, Ledger.get, hne, ih]
    · by_cases hk2 : k0 = k
      · subst hk2
        simp [Ledger.erase, Ledger.get, hk]
      · simp [Ledger.erase, Ledger.get, hk, hk2, ih]

theorem Ledger.get_put_same (st : Ledger) (key : String) (v : Bytes) :
    (st.put key v).get key = some v := by
  simp [Ledger.put, Ledger.get]

theorem Ledger.get_put_other (st : Ledger) (key k : String) (v : Bytes) (h : k ≠ key) :
    (st.put key v).get k = st.get k := by
  have hne : key ≠ k := fun e => h e.symm
  simp [Ledger.put, Ledger.get, hne, Ledger.get_erase_ne st key k h]

theorem Ledger.erase_of_get_none (st : Ledger) (key : String) (h : st.get key = none) :
    st.erase key = st := by
  induction st with
  | nil => rfl
  | cons r rest ih =>
    obtain ⟨k0, v0⟩ := r
    by_cases hk : k0 = key
    · simp [Ledger.get, hk] at h
    · simp only [Ledger.get, hk, if_false] at h
      simp [Ledger.erase, hk, ih h]

theorem Ledger.auditEntries_put_new (st : Ledger) (key : String) (v : Bytes)
    (hk : isLogKey key = true) (h : st.get key = none) :
    (st.put key v).auditEntries = (key, v) :: st.auditEntries := by
  simp [Ledger.put, Ledger.auditEntries, Ledger.erase_of_get_none st key h, List.filter, hk]

/-! ## Lemmas on the keys -/

theorem isLogKey_logKey (userID txID : String) : isLogKey (Simple.logKey userID txID) = true := by
  have h : "LOG_".data = ['L', 'O', 'G', '_'] := rfl
  simp [isLogKey, Simple.logKey, String.data_append, h, List.isPrefixOf]

theorem userKey_ne_logKey (id userID txID : String) :
    "USER_" ++ id ≠ Simple.logKey userID txID := by
  intro e
  have e2 := congrArg String.data e
  have h1 : "USER_".data = ['U', 'S', 'E', 'R', '_'] := rfl
  have h2 : "LOG_".data = ['L', 'O', 'G', '_'] := rfl
  simp [Simple.logKey, String.data_append, h1, h2] at e2

theorem policyKey_ne_logKey (resource userID txID : String) :
    "POLICY_" ++ resource ≠ Simple.logKey userID txID := by
  intro e
  have e2 := congrArg String.data e
  have h1 : "POLICY_".data = ['P', 'O', 'L', 'I', 'C', 'Y', '_'] := rfl
  have h2 : "LOG_".data = ['L', 'O', 'G', '_'] := rfl
  simp [Simple.logKey, String.data_append, h1, h2] at e2

theorem userKey_ne_policyKey (userID resource : String) :
    "USER_" ++ userID ≠ "POLICY_" ++ resource := by
  intro e
  have e2 := congrArg String.data e
  have h1 : "USER_".data = ['U', 'S', 'E', 'R', '_'] := rfl
  have h2 : "POLICY_".data = ['P', 'O', 'L', 'I', 'C', 'Y', '_'] := rfl
  simp [String.data_append, h1, h2] at e2

theorem logKey_injective (userID t1 t2 : String)
    (h : Simple.logKey userID t1 = Simple.logKey userID t2) : t1 = t2 := by
  have e := congrArg String.data h
  simp only [Simple.logKey, String.data_append] at e
  exact String.ext (List.append_cancel_left e)

theorem Ledger.mem_of_get (st : Ledger) (key : String) (v : Bytes)
    (h : st.get key = some v) : (key, v) ∈ st := by
  induction st with
  | nil => simp [Ledger.get] at h
  | cons r rest ih =>
    obtain ⟨k0, v0⟩ := r
    by_cases hk : k0 = key
    · subst hk
      simp only [Ledger.get, if_true, Option.some.injEq] at h
      subst h
      exact List.mem_cons_self _ _
    · simp only [Ledger.get, hk, if_false] at h
      exact List.mem_cons_of_mem _ (ih h)

theorem Ledger.mem_erase (st : Ledger) (key : String) (r : String × Bytes)
    (h : r ∈ st.erase key) : r ∈ st := by
  induction st with
  | nil => simp [Ledger.erase] at h
  | cons r0 rest ih =>
    obtain ⟨k0, v0⟩ := r0
    by_cases hk : k0 = key
    · simp only [Ledger.erase, hk, if_true] at h
      exact List.mem_cons_of_mem _ (ih h)
    · simp only [Ledger.erase, hk, if_false, List.mem_cons] at h
      rcases h with h | h
      · rw [h]; exact List.mem_cons_self _ _
      · exact List.mem_cons_of_mem _ (ih h)

theorem Ledger.mem_put (st : Ledger) (key : String) (v : Bytes) (r : String × Bytes)
    (h : r ∈ st.put key v) : r = (key, v) ∨ r ∈ st := by
  simp only [Ledger.put, List.mem_cons] at h
  rcases h with h | h
  · exact Or.inl h
  · exact Or.inr (Ledger.mem_erase st key r h)

theorem userKey_injective (a b : String) (h : "USER_" ++ a = "USER_" ++ b) : a = b := by
  have e := congrArg String.data h
  simp only [String.data_append] at e
  exact String.ext (List.append_cancel_left e)

theorem policyKey_injective (a b : String) (h : "POLICY_" ++ a = "POLICY_" ++ b) : a = b := by
  have e := congrArg String.data h
  simp only [String.data_append] at e
  exact String.ext (List.append_cancel_left e)

/-! ## Lemmas on the decision loops -/

namespace Simple

theorem matchedLoop_iff (cond : String) (attrs : List String) :
    matchedLoop cond attrs = true ↔ cond ∈ attrs := by
  induction attrs with
  | nil => simp [matchedLoop]
  | cons a rest ih =>
    by_cases h : a = cond
    · simp [matchedLoop, h]
    · have h2 : ¬ cond = a := fun e => h e.symm
      simp [matchedLoop, h, h2, ih]

theorem statusLoop_cases (attrs conds : List String) :
    statusLoop attrs conds = "Granted" ∨ statusLoop attrs conds = "Denied" := by
  induction conds with
  | nil => exact Or.inl rfl
  | cons c rest ih =>
    by_cases h : matchedLoop c attrs = true
    · simpa [statusLoop, h] using ih
    · simp [statusLoop, h]

theorem statusLoop_granted_iff (attrs conds : List String) :
    statusLoop attrs conds = "Granted" ↔ ∀ c ∈ conds, c ∈ attrs := by
  induction conds with
  | nil => simp [statusLoop]
  | cons c rest ih =>
    by_cases h : matchedLoop c attrs = true
    · have hc : c ∈ attrs := (matchedLoop_iff c attrs).1 h
      simp [statusLoop, h, ih, hc]
    · have hc : c ∉ attrs := fun hc => h ((matchedLoop_iff c attrs).2 hc)
      have hd : ("Denied" : String) ≠ "Granted" := by decide
      simp [statusLoop, h, hc, hd]

theorem statusLoop_denied_iff (attrs conds : List String) :
    statusLoop attrs conds = "Denied" ↔ ¬ ∀ c ∈ conds, c ∈ attrs := by
  rw [← statusLoop_granted_iff]
  have hd : ("Denied" : String) ≠ "Granted" := by decide
  rcases statusLoop_cases attrs conds with h | h
  · simp [h, hd.symm]
  · simp [h, hd]

end Simple

/-! ## Lemmas on the loops without early exit -/

namespace Simple

theorem foldl_matched (cond : String) (attrs : List String) (init : Bool) :
    attrs.foldl (fun matched attr => if attr = cond then true else matched) init =
      (init || decide (cond ∈ attrs)) := by
  induction attrs generalizing init with
  | nil => simp
  | cons a rest ih =>
    rw [List.foldl_cons, ih]
    by_cases h : a = cond
    · simp [h]
    · have h2 : ¬ cond = a := fun e => h e.symm
      simp [h, h2]

theorem matchedAll_iff (cond : String) (attrs : List String) :
    matchedAll cond attrs = true ↔ cond ∈ attrs := by
  rw [matchedAll, foldl_matched]
  simp

theorem foldl_status (attrs conds : List String) (init : String) :
    conds.foldl (fun status cond => if !matchedAll cond attrs then "Denied" else status) init =
      if ∀ c ∈ conds, c ∈ attrs then init else "Denied" := by
  induction conds generalizing init with
  | nil => simp
  | cons c rest ih =>
    rw [List.foldl_cons, ih]
    by_cases h : matchedAll c attrs = true
    · have hc : c ∈ attrs := (matchedAll_iff c attrs).1 h
      simp [h, hc]
    · have hc : c ∉ attrs := fun hc => h ((matchedAll_iff c attrs).2 hc)
      simp [h, hc]

theorem statusLoop_eq_ite (attrs conds : List String) :
    statusLoop attrs conds = if ∀ c ∈ conds, c ∈ attrs then "Granted" else "Denied" := by
  by_cases h : ∀ c ∈ conds, c ∈ attrs
  · rw [if_pos h]; exact (statusLoop_granted_iff attrs conds).2 h
  · rw [if_neg h]; exact (statusLoop_denied_iff attrs conds).2 h

end Simple

/-! ## `EvaluateAccess` once subject and policy are loaded -/

namespace Simple

theorem evaluateAccess_loaded (ctx : Ctx) (st : Ledger) (userID resource : String)
    (userData policyData : Bytes) (user : User) (policy : AccessPolicy)
    (hu : GetState ctx st ("USER_" ++ userID) = (some userData, none))
    (hud : unmarshalUser userData = (user, none))
    (hp : GetState ctx st ("POLICY_" ++ resource) = (some policyData, none))
    (hpd : unmarshalPolicy policyData = (policy, none)) :
    EvaluateAccess ctx st userID resource =
      match PutState ctx st (logKey userID ctx.txID)
          (marshalAccessLog (logEntryOf ctx user policy (statusLoop user.Attributes.elems policy.Conditions.elems))) with
      | (some err, st1) => (("", some ("failed to store access log: " ++ err)), st1)
      | (none, st1) =>
        ((formatAccessLog (logEntryOf ctx user policy (statusLoop user.Attributes.elems policy.Conditions.elems)), none), st1) := by
  simp only [EvaluateAccess, hu, hud, hp, hpd]

theorem evaluateAccess_written (ctx : Ctx) (st : Ledger) (userID resource : String)
    (userData policyData : Bytes) (user : User) (policy : AccessPolicy)
    (hu : GetState ctx st ("USER_" ++ userID) = (some userData, none))
    (hud : unmarshalUser userData = (user, none))
    (hp : GetState ctx st ("POLICY_" ++ resource) = (some policyData, none))
    (hpd : unmarshalPolicy policyData = (policy, none))
    (hw : ctx.putErr (logKey userID ctx.txID)
      (marshalAccessLog (logEntryOf ctx user policy (statusLoop user.Attributes.elems policy.Conditions.elems))) = none) :
    EvaluateAccess ctx st userID resource =
      ((formatAccessLog (logEntryOf ctx user policy (statusLoop user.Attributes.elems policy.Conditions.elems)), none),
        st.put (logKey userID ctx.txID)
          (marshalAccessLog (logEntryOf ctx user policy (statusLoop user.Attributes.elems policy.Conditions.elems)))) := by
  rw [evaluateAccess_loaded ctx st userID resource userData policyData user policy hu hud hp hpd]
  simp only [PutState, hw]

end Simple

/-! ## Registration followed by evaluation -/

namespace Simple

theorem registerUser_success (ctx : Ctx) (st : Ledger) (userID : String) (attrs : StrSlice)
    (h : (RegisterUser ctx st userID (marshalStrSlice attrs)).1 = none) :
    (RegisterUser ctx st userID (marshalStrSlice attrs)).2 =
      st.put ("USER_" ++ userID) (marshalUser ⟨userID, attrs⟩) := by
  unfold RegisterUser at h ⊢
  rw [unmarshalStrSlice_marshal] at h ⊢
  simp only [PutState] at h ⊢
  cases hput : ctx.putErr ("USER_" ++ userID) (marshalUser ⟨userID, attrs⟩) with
  | some err => simp [hput] at h
  | none => rfl

theorem createPolicy_success (ctx : Ctx) (st : Ledger) (resource : String) (conds : StrSlice)
    (h : (CreatePolicy ctx st resource (marshalStrSlice conds)).1 = none) :
    (CreatePolicy ctx st resource (marshalStrSlice conds)).2 =
      st.put ("POLICY_" ++ resource) (marshalPolicy ⟨resource, conds⟩) := by
  unfold CreatePolicy at h ⊢
  rw [unmarshalStrSlice_marshal] at h ⊢
  simp only [PutState] at h ⊢
  cases hput : ctx.putErr ("POLICY_" ++ resource) (marshalPolicy ⟨resource, conds⟩) with
  | some err => simp [hput] at h
  | none => rfl

end Simple

/-! ## What a successful evaluation implies -/

namespace Simple

theorem evaluateAccess_success_inv (ctx : Ctx) (st : Ledger) (userID resource : String)
    (h : (EvaluateAccess ctx st userID resource).1.2 = none) :
    ∃ userData policyData user policy,
      GetState ctx st ("USER_" ++ userID) = (some userData, none) ∧
      unmarshalUser userData = (user, none) ∧
      GetState ctx st ("POLICY_" ++ resource) = (some policyData, none) ∧
      unmarshalPolicy policyData = (policy, none) ∧
      ctx.putErr (logKey userID ctx.txID)
        (marshalAccessLog (logEntryOf ctx user policy
          (statusLoop user.Attributes.elems policy.Conditions.elems))) = none := by
  unfold EvaluateAccess at h
  split at h
  · next userData hu =>
    split at h
    · simp at h
    · next user hud =>
      split at h
      · next policyData hp =>
        split at h
        · simp at h
        · next policy hpd =>
          refine ⟨userData, policyData, user, policy, hu, hud, hp, hpd, ?_⟩
          simp only [PutState] at h
          cases hput : ctx.putErr (logKey userID ctx.txID)
              (marshalAccessLog (logEntryOf ctx user policy
                (statusLoop user.Attributes.elems policy.Conditions.elems))) with
          | none => rfl
          | some err => simp [hput] at h
      · simp at h
  · simp at h

end Simple

/-! ## Decision correctness -/

/-- C2: when the stored policy has no condition, its condition list being nil or
empty, then whatever the attributes of the stored user, nil and empty lists
included, the status `EvaluateAccess` computes is "Granted", and when the write
succeeds the log entry stored and returned is the one of status "Granted". -/
theorem Simple.evaluateAccess_vacuous_policy (ctx : Ctx) (st : Ledger)
    (userID resource : String) (userData policyData : Bytes) (user : User)
    (policy : AccessPolicy)
    (hu : GetState ctx st ("USER_" ++ userID) = (some userData, none))
    (hud : unmarshalUser userData = (user, none))
    (hp : GetState ctx st ("POLICY_" ++ resource) = (some policyData, none))
    (hpd : unmarshalPolicy policyData = (policy, none))
    (hempty : policy.Conditions = none ∨ policy.Conditions = some []) :
    Simple.statusLoop user.Attributes.elems policy.Conditions.elems = "Granted" ∧
    (ctx.putErr (Simple.logKey userID ctx.txID)
        (Simple.marshalAccessLog (Simple.logEntryOf ctx user policy "Granted")) = none →
      Simple.EvaluateAccess ctx st userID resource =
        ((Simple.formatAccessLog (Simple.logEntryOf ctx user policy "Granted"), none),
          st.put (Simple.logKey userID ctx.txID)
            (Simple.marshalAccessLog (Simple.logEntryOf ctx user policy "Granted")))) := by
  have hs : Simple.statusLoop user.Attributes.elems policy.Conditions.elems = "Granted" := by
    rcases hempty with h | h <;> rw [h] <;> rfl
  refine ⟨hs, fun hw => ?_⟩
  have hw2 : ctx.putErr (Simple.logKey userID ctx.txID)
      (Simple.marshalAccessLog (Simple.logEntryOf ctx user policy
        (Simple.statusLoop user.Attributes.elems policy.Conditions.elems))) = none := by
    rw [hs]; exact hw
  rw [Simple.evaluateAccess_written ctx st userID resource userData policyData user policy
    hu hud hp hpd hw2, hs]

/-- Witness of C2: alice on the policy "open", which has no condition. -/
theorem Simple.evaluateAccess_vacuous_policy_witness :
    Simple.statusLoop (⟨"alice", some ["dept:eng", "level:3"]⟩ : User).Attributes.elems
      (⟨"open", some []⟩ : AccessPolicy).Conditions.elems = "Granted" ∧
    Simple.EvaluateAccess (ctxOk "tx4") ledgerAlice "alice" "open" =
      ((Simple.formatAccessLog (Simple.logEntryOf (ctxOk "tx4")
          ⟨"alice", some ["dept:eng", "level:3"]⟩ ⟨"open", some []⟩ "Granted"), none),
        ledgerAlice.put (Simple.logKey "alice" (ctxOk "tx4").txID)
          (Simple.marshalAccessLog (Simple.logEntryOf (ctxOk "tx4")
            ⟨"alice", some ["dept:eng", "level:3"]⟩ ⟨"open", some []⟩ "Granted"))) :=
  ⟨(Simple.evaluateAccess_vacuous_policy (ctxOk "tx4") ledgerAlice "alice" "open"
      (marshalUser ⟨"alice", some ["dept:eng", "level:3"]⟩) (marshalPolicy ⟨"open", some []⟩)
      ⟨"alice", some ["dept:eng", "level:3"]⟩ ⟨"open", some []⟩ rfl rfl rfl rfl
      (Or.inr rfl)).1,
    (Simple.evaluateAccess_vacuous_policy (ctxOk "tx4") ledgerAlice "alice" "open"
      (marshalUser ⟨"alice", some ["dept:eng", "level:3"]⟩) (marshalPolicy ⟨"open", some []⟩)
      ⟨"alice", some ["dept:eng", "level:3"]⟩ ⟨"open", some []⟩ rfl rfl rfl rfl
      (Or.inr rfl)).2 rfl⟩

/-! ## Order independence -/

/-- C3: the status computed by the loops of `EvaluateAccess`, which leave early, is
the same for any permutation of the attributes and any permutation of the
conditions, repeated elements included, and is the status obtained by evaluating
every condition against every attribute without leaving early. -/
theorem Simple.statusLoop_order_independent (attrs attrs2 conds conds2 : List String)
    (hA : attrs.Perm attrs2) (hC : conds.Perm conds2) :
    Simple.statusLoop attrs conds = Simple.statusLoop attrs2 conds2 ∧
    Simple.statusLoop attrs conds = Simple.evaluateAll attrs conds := by
  constructor
  · rw [Simple.statusLoop_eq_ite, Simple.statusLoop_eq_ite]
    have : (∀ c ∈ conds, c ∈ attrs) ↔ (∀ c ∈ conds2, c ∈ attrs2) := by
      constructor
      · intro h c hc
        exact hA.mem_iff.1 (h c (hC.mem_iff.2 hc))
      · intro h c hc
        exact hA.mem_iff.2 (h c (hC.mem_iff.1 hc))
    simp only [this]
  · rw [Simple.statusLoop_eq_ite, Simple.evaluateAll, Simple.foldl_status]

/-- Witness of C3: attributes and conditions with a repeated element, reordered. -/
theorem Simple.statusLoop_order_independent_witness :
    Simple.statusLoop ["a", "b", "a"] ["b", "a", "b"] =
      Simple.statusLoop ["a", "a", "b"] ["b", "b", "a"] ∧
    Simple.statusLoop ["a", "b", "a"] ["b", "a", "b"] =
      Simple.evaluateAll ["a", "b", "a"] ["b", "a", "b"] :=
  Simple.statusLoop_order_independent ["a", "b", "a"] ["a", "a", "b"] ["b", "a", "b"]
    ["b", "b", "a"] (by decide) (by decide)

/-! ## Frame of a successful evaluation -/

/-- C4: when `USER_<userID>` and `POLICY_<resource>` both exist and decode and the
write succeeds, the ledger after `EvaluateAccess` holds under `LOG_<userID>_<txID>`
the encoded log entry with the computed status, every other key holds what it held
before, in particular every `USER_` and every `POLICY_` key, and when the log key was
not present before, the ledger has exactly one more audit entry. -/
theorem Simple.evaluateAccess_frame (ctx : Ctx) (st : Ledger) (userID resource : String)
    (userData policyData : Bytes) (user : User) (policy : AccessPolicy)
    (hu : GetState ctx st ("USER_" ++ userID) = (some userData, none))
    (hud : unmarshalUser userData = (user, none))
    (hp : GetState ctx st ("POLICY_" ++ resource) = (some policyData, none))
    (hpd : unmarshalPolicy policyData = (policy, none))
    (hw : ctx.putErr (Simple.logKey userID ctx.txID)
      (Simple.marshalAccessLog (Simple.logEntryOf ctx user policy
        (Simple.statusLoop user.Attributes.elems policy.Conditions.elems))) = none) :
    (Simple.EvaluateAccess ctx st userID resource).1.2 = none ∧
    (Simple.EvaluateAccess ctx st userID resource).2.get (Simple.logKey userID ctx.txID) =
      some (Simple.marshalAccessLog (Simple.logEntryOf ctx user policy
        (Simple.statusLoop user.Attributes.elems policy.Conditions.elems))) ∧
    (∀ k, k ≠ Simple.logKey userID ctx.txID →
      (Simple.EvaluateAccess ctx st userID resource).2.get k = st.get k) ∧
    (∀ id, (Simple.EvaluateAccess ctx st userID resource).2.get ("USER_" ++ id) =
      st.get ("USER_" ++ id)) ∧
    (∀ res, (Simple.EvaluateAccess ctx st userID resource).2.get ("POLICY_" ++ res) =
      st.get ("POLICY_" ++ res)) ∧
    (st.get (Simple.logKey userID ctx.txID) = none →
      (Simple.EvaluateAccess ctx st userID resource).2.auditEntries.length =
        st.auditEntries.length + 1) := by
  rw [Simple.evaluateAccess_written ctx st userID resource userData policyData user policy
    hu hud hp hpd hw]
  refine ⟨rfl, Ledger.get_put_same _ _ _, ?_, ?_, ?_, ?_⟩
  · intro k hk
    exact Ledger.get_put_other _ _ _ _ hk
  · intro id
    exact Ledger.get_put_other _ _ _ _ (userKey_ne_logKey id userID ctx.txID)
  · intro res
    exact Ledger.get_put_other _ _ _ _ (policyKey_ne_logKey res userID ctx.txID)
  · intro hnew
    simp only []
    rw [Ledger.auditEntries_put_new _ _ _ (isLogKey_logKey userID ctx.txID) hnew]
    rfl

/-- Witness of C4: the evaluation of alice on the repository in transaction "tx1". -/
theorem Simple.evaluateAccess_frame_witness :
    (Simple.EvaluateAccess (ctxOk "tx1") ledgerAlice "alice" "repo").1.2 = none ∧
    (Simple.EvaluateAccess (ctxOk "tx1") ledgerAlice "alice" "repo").2.get
        (Simple.logKey "alice" (ctxOk "tx1").txID) =
      some (Simple.marshalAccessLog (Simple.logEntryOf (ctxOk "tx1")
        ⟨"alice", some ["dept:eng", "level:3"]⟩ ⟨"repo", some ["dept:eng"]⟩
        (Simple.statusLoop
          (⟨"alice", some ["dept:eng", "level:3"]⟩ : User).Attributes.elems
          (⟨"repo", some ["dept:eng"]⟩ : AccessPolicy).Conditions.elems))) ∧
    (∀ k, k ≠ Simple.logKey "alice" (ctxOk "tx1").txID →
      (Simple.EvaluateAccess (ctxOk "tx1") ledgerAlice "alice" "repo").2.get k =
        ledgerAlice.get k) ∧
    (∀ id, (Simple.EvaluateAccess (ctxOk "tx1") ledgerAlice "alice" "repo").2.get
      ("USER_" ++ id) = ledgerAlice.get ("USER_" ++ id)) ∧
    (∀ res, (Simple.EvaluateAccess (ctxOk "tx1") ledgerAlice "alice" "repo").2.get
      ("POLICY_" ++ res) = ledgerAlice.get ("POLICY_" ++ res)) ∧
    (ledgerAlice.get (Simple.logKey "alice" (ctxOk "tx1").txID) = none →
      (Simple.EvaluateAccess (ctxOk "tx1") ledgerAlice "alice" "repo").2.auditEntries.length =
        ledgerAlice.auditEntries.length + 1) :=
  Simple.evaluateAccess_frame (ctxOk "tx1") ledgerAlice "alice" "repo"
    (marshalUser ⟨"alice", some ["dept:eng", "level:3"]⟩)
    (marshalPolicy ⟨"repo", some ["dept:eng"]⟩)
    ⟨"alice", some ["dept:eng", "level:3"]⟩ ⟨"repo", some ["dept:eng"]⟩ rfl rfl rfl rfl rfl

/-! ## Failures of `EvaluateAccess` -/

/-- C5: in every ledger, when `USER_<userID>` is absent `EvaluateAccess` returns the
error "user not found", whatever is stored for the policy, and when it is present
but does not decode, the error "invalid user data"; when the user loads and
`POLICY_<resource>` is absent it returns "policy not found", and when that record
does not decode, "invalid policy data".  In all four cases the string returned is
empty and the ledger afterwards is the ledger before. -/
theorem Simple.evaluateAccess_lookup_failure (ctx : Ctx) (st : Ledger)
    (userID resource : String) :
    (st.get ("USER_" ++ userID) = none →
      Simple.EvaluateAccess ctx st userID resource = (("", some "user not found"), st)) ∧
    (∀ userData e, GetState ctx st ("USER_" ++ userID) = (some userData, none) →
      (unmarshalUser userData).2 = some e →
      Simple.EvaluateAccess ctx st userID resource =
        (("", some ("invalid user data: " ++ e)), st)) ∧
    (∀ userData user, GetState ctx st ("USER_" ++ userID) = (some userData, none) →
      unmarshalUser userData = (user, none) →
      st.get ("POLICY_" ++ resource) = none →
      Simple.EvaluateAccess ctx st userID resource = (("", some "policy not found"), st)) ∧
    (∀ userData user policyData e,
      GetState ctx st ("USER_" ++ userID) = (some userData, none) →
      unmarshalUser userData = (user, none) →
      GetState ctx st ("POLICY_" ++ resource) = (some policyData, none) →
      (unmarshalPolicy policyData).2 = some e →
      Simple.EvaluateAccess ctx st userID resource =
        (("", some ("invalid policy data: " ++ e)), st)) := by
  refine ⟨?_, ?_, ?_, ?_⟩
  · intro h
    have hg : ∀ d, GetState ctx st ("USER_" ++ userID) ≠ (some d, none) := by
      intro d hd
      unfold GetState at hd
      cases hc : ctx.getErr ("USER_" ++ userID) <;> simp [hc, h] at hd
    unfold Simple.EvaluateAccess
    split
    · next d hd => exact absurd hd (hg d)
    · rfl
  · intro userData e hu hd
    have hd2 : unmarshalUser userData = ((unmarshalUser userData).1, some e) :=
      Prod.ext rfl hd
    unfold Simple.EvaluateAccess
    simp only [hu]
    rw [hd2]
  · intro userData user hu hud h
    have hg : ∀ d, GetState ctx st ("POLICY_" ++ resource) ≠ (some d, none) := by
      intro d hd
      unfold GetState at hd
      cases hc : ctx.getErr ("POLICY_" ++ resource) <;> simp [hc, h] at hd
    unfold Simple.EvaluateAccess
    simp only [hu, hud]
  · intro userData user policyData e hu hud hp hd
    have hd2 : unmarshalPolicy policyData = ((unmarshalPolicy policyData).1, some e) :=
      Prod.ext rfl hd
    unfold Simple.EvaluateAccess
    simp only [hu, hud, hp]
    rw [hd2]

/-- Witness of C5: bob was never registered and the policy asked for does not exist
either; the record of carol is not JSON; alice asks for a policy that does not
exist, and for one whose record is not JSON. -/
theorem Simple.evaluateAccess_lookup_failure_witness :
    Simple.EvaluateAccess (ctxOk "tx3") ledgerAlice "bob" "missing" =
      (("", some "user not found"), ledgerAlice) ∧
    Simple.EvaluateAccess (ctxOk "tx3") ledgerCorrupt "carol" "archive" =
      (("", some ("invalid user data: " ++ jsonSyntaxError)), ledgerCorrupt) ∧
    Simple.EvaluateAccess (ctxOk "tx3") ledgerCorrupt "alice" "missing" =
      (("", some "policy not found"), ledgerCorrupt) ∧
    Simple.EvaluateAccess (ctxOk "tx3") ledgerCorrupt "alice" "archive" =
      (("", some ("invalid policy data: " ++ jsonSyntaxError)), ledgerCorrupt) :=
  ⟨(Simple.evaluateAccess_lookup_failure (ctxOk "tx3") ledgerAlice "bob" "missing").1 rfl,
    (Simple.evaluateAccess_lookup_failure (ctxOk "tx3") ledgerCorrupt "carol" "archive").2.1
      (Bytes.malformed "carol;dept:eng") jsonSyntaxError rfl rfl,
    (Simple.evaluateAccess_lookup_failure (ctxOk "tx3") ledgerCorrupt "alice" "missing").2.2.1
      (marshalUser ⟨"alice", some ["dept:eng", "level:3"]⟩)
      ⟨"alice", some ["dept:eng", "level:3"]⟩ rfl rfl rfl,
    (Simple.evaluateAccess_lookup_failure (ctxOk "tx3") ledgerCorrupt "alice" "archive").2.2.2
      (marshalUser ⟨"alice", some ["dept:eng", "level:3"]⟩)
      ⟨"alice", some ["dept:eng", "level:3"]⟩ (Bytes.malformed "\x7bresource")
      jsonSyntaxError rfl rfl rfl rfl⟩

/-- C6: when subject and policy load and the write of the log entry fails,
`EvaluateAccess` returns the empty string together with an error, so neither
"Granted" nor "Denied" reaches the caller, and the ledger is left as it was. -/
theorem Simple.evaluateAccess_write_failure (ctx : Ctx) (st : Ledger)
    (userID resource : String) (userData policyData : Bytes) (user : User)
    (policy : AccessPolicy) (e : String)
    (hu : GetState ctx st ("USER_" ++ userID) = (some userData, none))
    (hud : unmarshalUser userData = (user, none))
    (hp : GetState ctx st ("POLICY_" ++ resource) = (some policyData, none))
    (hpd : unmarshalPolicy policyData = (policy, none))
    (hw : ctx.putErr (Simple.logKey userID ctx.txID)
      (Simple.marshalAccessLog (Simple.logEntryOf ctx user policy
        (Simple.statusLoop user.Attributes.elems policy.Conditions.elems))) = some e) :
    Simple.EvaluateAccess ctx st userID resource =
      (("", some ("failed to store access log: " ++ e)), st) := by
  rw [Simple.evaluateAccess_loaded ctx st userID resource userData policyData user policy
    hu hud hp hpd]
  simp only [PutState, hw]

/-- Witness of C6: alice on the repository while the ledger refuses the write. -/
theorem Simple.evaluateAccess_write_failure_witness :
    Simple.EvaluateAccess (ctxPutFails "tx5") ledgerAlice "alice" "repo" =
      (("", some ("failed to store access log: " ++ "ledger write refused")), ledgerAlice) :=
  Simple.evaluateAccess_write_failure (ctxPutFails "tx5") ledgerAlice "alice" "repo"
    (marshalUser ⟨"alice", some ["dept:eng", "level:3"]⟩)
    (marshalPolicy ⟨"repo", some ["dept:eng"]⟩)
    ⟨"alice", some ["dept:eng", "level:3"]⟩ ⟨"repo", some ["dept:eng"]⟩
    "ledger write refused" rfl rfl rfl rfl rfl

/-! ## Registration -/

/-- C7: when `attributesJSON` does not parse, `RegisterUser` returns an error and
the ledger is the one before, and likewise `CreatePolicy` when `conditionsJSON` does
not parse.  When the input parses and the write succeeds, the ledger afterwards
holds the encoded record under `USER_<userID>`, respectively `POLICY_<resource>`,
and reads as before under every other key. -/
theorem Simple.register_invalid_input (ctx : Ctx) (st : Ledger) (name : String)
    (input : Bytes) :
    (∀ e, (unmarshalStrSlice input).2 = some e →
      Simple.RegisterUser ctx st name input = (some ("invalid attribute format: " ++ e), st) ∧
      Simple.CreatePolicy ctx st name input =
        (some ("invalid policy conditions format: " ++ e), st)) ∧
    ((unmarshalStrSlice input).2 = none →
      (Simple.RegisterUser ctx st name input).1 = none →
      (Simple.RegisterUser ctx st name input).2.get ("USER_" ++ name) =
        some (marshalUser ⟨name, (unmarshalStrSlice input).1⟩) ∧
      ∀ k, k ≠ "USER_" ++ name →
        (Simple.RegisterUser ctx st name input).2.get k = st.get k) ∧
    ((unmarshalStrSlice input).2 = none →
      (Simple.CreatePolicy ctx st name input).1 = none →
      (Simple.CreatePolicy ctx st name input).2.get ("POLICY_" ++ name) =
        some (marshalPolicy ⟨name, (unmarshalStrSlice input).1⟩) ∧
      ∀ k, k ≠ "POLICY_" ++ name →
        (Simple.CreatePolicy ctx st name input).2.get k = st.get k) := by
  refine ⟨?_, ?_, ?_⟩
  · intro e he
    have hd : unmarshalStrSlice input = ((unmarshalStrSlice input).1, some e) :=
      Prod.ext rfl he
    constructor
    · unfold Simple.RegisterUser
      rw [hd]
    · unfold Simple.CreatePolicy
      rw [hd]
  · intro hparse
    have hd : unmarshalStrSlice input = ((unmarshalStrSlice input).1, none) :=
      Prod.ext rfl hparse
    unfold Simple.RegisterUser
    rw [hd]
    simp only [PutState]
    cases hput : ctx.putErr ("USER_" ++ name) (marshalUser ⟨name, (unmarshalStrSlice input).1⟩) with
    | some err => intro hsucc; simp at hsucc
    | none =>
      intro _
      exact ⟨Ledger.get_put_same _ _ _, fun k hk => Ledger.get_put_other _ _ _ _ hk⟩
  · intro hparse
    have hd : unmarshalStrSlice input = ((unmarshalStrSlice input).1, none) :=
      Prod.ext rfl hparse
    unfold Simple.CreatePolicy
    rw [hd]
    simp only [PutState]
    cases hput : ctx.putErr ("POLICY_" ++ name)
        (marshalPolicy ⟨name, (unmarshalStrSlice input).1⟩) with
    | some err => intro hsucc; simp at hsucc
    | none =>
      intro _
      exact ⟨Ledger.get_put_same _ _ _, fun k hk => Ledger.get_put_other _ _ _ _ hk⟩

/-- Witness of C7: text that is not JSON is refused by both methods, and a list of
strings is stored under the one key of the record. -/
theorem Simple.register_invalid_input_witness :
    (Simple.RegisterUser (ctxOk "tx6") ledgerAlice "dave" (Bytes.malformed "dept:eng,") =
        (some ("invalid attribute format: " ++ jsonSyntaxError), ledgerAlice) ∧
      Simple.CreatePolicy (ctxOk "tx6") ledgerAlice "dave" (Bytes.malformed "dept:eng,") =
        (some ("invalid policy conditions format: " ++ jsonSyntaxError), ledgerAlice)) ∧
    ((Simple.RegisterUser (ctxOk "tx6") ledgerAlice "dave"
        (marshalStrSlice (some ["dept:ops"]))).2.get ("USER_" ++ "dave") =
        some (marshalUser ⟨"dave", (unmarshalStrSlice (marshalStrSlice (some ["dept:ops"]))).1⟩) ∧
      ∀ k, k ≠ "USER_" ++ "dave" →
        (Simple.RegisterUser (ctxOk "tx6") ledgerAlice "dave"
          (marshalStrSlice (some ["dept:ops"]))).2.get k = ledgerAlice.get k) ∧
    ((Simple.CreatePolicy (ctxOk "tx6") ledgerAlice "dave"
        (marshalStrSlice (some ["dept:ops"]))).2.get ("POLICY_" ++ "dave") =
        some (marshalPolicy
          ⟨"dave", (unmarshalStrSlice (marshalStrSlice (some ["dept:ops"]))).1⟩) ∧
      ∀ k, k ≠ "POLICY_" ++ "dave" →
        (Simple.CreatePolicy (ctxOk "tx6") ledgerAlice "dave"
          (marshalStrSlice (some ["dept:ops"]))).2.get k = ledgerAlice.get k) :=
  ⟨(Simple.register_invalid_input (ctxOk "tx6") ledgerAlice "dave"
      (Bytes.malformed "dept:eng,")).1 jsonSyntaxError rfl,
    (Simple.register_invalid_input (ctxOk "tx6") ledgerAlice "dave"
      (marshalStrSlice (some ["dept:ops"]))).2.1 rfl rfl,
    (Simple.register_invalid_input (ctxOk "tx6") ledgerAlice "dave"
      (marshalStrSlice (some ["dept:ops"]))).2.2 rfl rfl⟩

/-! ## Round trip through the ledger in the ABAC contract -/

/-- Counterexample to C8 as stated: on a ledger whose reads fail, `RegisterUser`
succeeds, its single ledger call being a write, and `ReadUser` of the same id on
the resulting ledger returns no user and the error "User not found". -/
theorem Abac.readUser_fails_on_read_fault :
    (Abac.RegisterUser (ctxGetFails "tx1") [] "alice"
      (marshalStrSlice (some ["dept:eng"]))).1 = none ∧
    Abac.ReadUser (ctxGetFails "tx1")
      (Abac.RegisterUser (ctxGetFails "tx1") [] "alice"
        (marshalStrSlice (some ["dept:eng"]))).2 "alice" = (none, some "User not found") :=
  ⟨rfl, rfl⟩

/-- C8, amended: for every prior ledger, also one that holds a record for the same
id, after `RegisterUser` of the ABAC contract succeeds on the encoding of the
attribute list, `ReadUser` of that id on the resulting ledger, when its read of the
ledger reports no error, succeeds and returns the user with that id and exactly that
attribute list. -/
theorem Abac.registerUser_readUser (ctx ctx2 : Ctx) (st : Ledger) (userID : String)
    (attrs : StrSlice)
    (hreg : (Abac.RegisterUser ctx st userID (marshalStrSlice attrs)).1 = none)
    (hread : ctx2.getErr ("USER_" ++ userID) = none) :
    Abac.ReadUser ctx2 (Abac.RegisterUser ctx st userID (marshalStrSlice attrs)).2 userID =
      (some ⟨userID, attrs⟩, none) := by
  unfold Abac.RegisterUser at hreg ⊢
  rw [unmarshalStrSlice_marshal] at hreg ⊢
  simp only [PutState] at hreg ⊢
  cases hput : ctx.putErr ("USER_" ++ userID) (marshalUser ⟨userID, attrs⟩) with
  | some err => simp [hput] at hreg
  | none =>
    simp only [Abac.ReadUser, GetState, hread, Ledger.get_put_same, unmarshalUser_marshal]

/-- Witness of C8: alice, registered before with two attributes, is registered
again with one, and read back. -/
theorem Abac.registerUser_readUser_witness :
    Abac.ReadUser (ctxOk "tx2")
      (Abac.RegisterUser (ctxOk "tx1") ledgerAbac "alice"
        (marshalStrSlice (some ["level:5"]))).2 "alice" =
      (some ⟨"alice", some ["level:5"]⟩, none) :=
  Abac.registerUser_readUser (ctxOk "tx1") (ctxOk "tx2") ledgerAbac "alice"
    (some ["level:5"]) rfl rfl

/-! ## From registration to the audit entry -/

/-- Counterexample to C9 as stated: on a ledger that refuses writes under `LOG_`
keys, `RegisterUser` and `CreatePolicy` both succeed and `EvaluateAccess` of the
registered user on the registered policy returns the empty string and the error of
the failed write; on a ledger whose reads fail, the two registrations succeed as
well and `EvaluateAccess` returns "user not found". -/
theorem Simple.evaluateAccess_fails_on_ledger_fault :
    ((Simple.RegisterUser (ctxLogRefused "tx1") [] "alice"
      (marshalStrSlice (some ["dept:eng", "level:3"]))).1 = none ∧
    (Simple.CreatePolicy (ctxLogRefused "tx2")
      (Simple.RegisterUser (ctxLogRefused "tx1") [] "alice"
        (marshalStrSlice (some ["dept:eng", "level:3"]))).2 "repo"
      (marshalStrSlice (some ["dept:eng"]))).1 = none ∧
    (Simple.EvaluateAccess (ctxLogRefused "tx3")
      (Simple.CreatePolicy (ctxLogRefused "tx2")
        (Simple.RegisterUser (ctxLogRefused "tx1") [] "alice"
          (marshalStrSlice (some ["dept:eng", "level:3"]))).2 "repo"
        (marshalStrSlice (some ["dept:eng"]))).2 "alice" "repo").1 =
      ("", some "failed to store access log: ledger write refused")) ∧
    ((Simple.RegisterUser (ctxGetFails "tx1") [] "alice"
      (marshalStrSlice (some ["dept:eng", "level:3"]))).1 = none ∧
    (Simple.CreatePolicy (ctxGetFails "tx2")
      (Simple.RegisterUser (ctxGetFails "tx1") [] "alice"
        (marshalStrSlice (some ["dept:eng", "level:3"]))).2 "repo"
      (marshalStrSlice (some ["dept:eng"]))).1 = none ∧
    (Simple.EvaluateAccess (ctxGetFails "tx3")
      (Simple.CreatePolicy (ctxGetFails "tx2")
        (Simple.RegisterUser (ctxGetFails "tx1") [] "alice"
          (marshalStrSlice (some ["dept:eng", "level:3"]))).2 "repo"
        (marshalStrSlice (some ["dept:eng"]))).2 "alice" "repo").1 =
      ("", some "user not found")) :=
  ⟨⟨rfl, rfl, rfl⟩, ⟨rfl, rfl, rfl⟩⟩

/-- C9, amended: for every initial ledger, after `RegisterUser` of a user on the
encoding of its attributes and `CreatePolicy` of a resource on the encoding of its
conditions both succeed, `EvaluateAccess` of that user on that resource, provided
its two reads and its write of the log entry report no error, succeeds, and the
audit entry it stores and returns has that user as requester, that resource as
resource, and status "Granted" when every condition is among the attributes,
"Denied" otherwise. -/
theorem Simple.register_then_evaluate (ctx1 ctx2 ctx3 : Ctx) (st : Ledger)
    (userID resource : String) (attrs conds : StrSlice)
    (hreg : (Simple.RegisterUser ctx1 st userID (marshalStrSlice attrs)).1 = none)
    (hpol : (Simple.CreatePolicy ctx2
      (Simple.RegisterUser ctx1 st userID (marshalStrSlice attrs)).2 resource
      (marshalStrSlice conds)).1 = none)
    (hru : ctx3.getErr ("USER_" ++ userID) = none)
    (hrp : ctx3.getErr ("POLICY_" ++ resource) = none)
    (hw : ctx3.putErr (Simple.logKey userID ctx3.txID)
      (Simple.marshalAccessLog (Simple.logEntryOf ctx3 ⟨userID, attrs⟩ ⟨resource, conds⟩
        (Simple.statusLoop attrs.elems conds.elems))) = none) :
    ∃ entry : Simple.AccessLog,
      (Simple.EvaluateAccess ctx3
        (Simple.CreatePolicy ctx2
          (Simple.RegisterUser ctx1 st userID (marshalStrSlice attrs)).2 resource
          (marshalStrSlice conds)).2 userID resource).1 =
        (Simple.formatAccessLog entry, none) ∧
      (Simple.EvaluateAccess ctx3
        (Simple.CreatePolicy ctx2
          (Simple.RegisterUser ctx1 st userID (marshalStrSlice attrs)).2 resource
          (marshalStrSlice conds)).2 userID resource).2.get
          (Simple.logKey userID ctx3.txID) = some (Simple.marshalAccessLog entry) ∧
      entry.Requester = userID ∧ entry.Resource = resource ∧
      (entry.Status = "Granted" ↔ ∀ c ∈ conds.elems, c ∈ attrs.elems) ∧
      (entry.Status = "Denied" ↔ ¬ ∀ c ∈ conds.elems, c ∈ attrs.elems) := by
  have h1 := Simple.registerUser_success ctx1 st userID attrs hreg
  rw [h1] at hpol ⊢
  have h2 := Simple.createPolicy_success ctx2 _ resource conds hpol
  rw [h2]
  have hu : GetState ctx3
      ((st.put ("USER_" ++ userID) (marshalUser ⟨userID, attrs⟩)).put
        ("POLICY_" ++ resource) (marshalPolicy ⟨resource, conds⟩)) ("USER_" ++ userID) =
      (some (marshalUser ⟨userID, attrs⟩), none) := by
    simp only [GetState, hru]
    rw [Ledger.get_put_other _ _ _ _ (userKey_ne_policyKey userID resource),
      Ledger.get_put_same]
  have hp : GetState ctx3
      ((st.put ("USER_" ++ userID) (marshalUser ⟨userID, attrs⟩)).put
        ("POLICY_" ++ resource) (marshalPolicy ⟨resource, conds⟩)) ("POLICY_" ++ resource) =
      (some (marshalPolicy ⟨resource, conds⟩), none) := by
    simp only [GetState, hrp]
    rw [Ledger.get_put_same]
  refine ⟨Simple.logEntryOf ctx3 ⟨userID, attrs⟩ ⟨resource, conds⟩
    (Simple.statusLoop attrs.elems conds.elems), ?_, ?_, rfl, rfl, ?_, ?_⟩
  · rw [Simple.evaluateAccess_written ctx3 _ userID resource _ _ ⟨userID, attrs⟩
      ⟨resource, conds⟩ hu (unmarshalUser_marshal _) hp (unmarshalPolicy_marshal _) hw]
  · rw [Simple.evaluateAccess_written ctx3 _ userID resource _ _ ⟨userID, attrs⟩
      ⟨resource, conds⟩ hu (unmarshalUser_marshal _) hp (unmarshalPolicy_marshal _) hw]
    exact Ledger.get_put_same _ _ _
  · exact Simple.statusLoop_granted_iff _ _
  · exact Simple.statusLoop_denied_iff _ _

/-- Witness of C9: alice, holding "dept:eng" and "level:3", is granted the
repository, which asks for "dept:eng", and denied the vault, which asks for
"level:5". -/
theorem Simple.register_then_evaluate_witness :
    (∃ entry : Simple.AccessLog,
      (Simple.EvaluateAccess (ctxOk "tx3")
        (Simple.CreatePolicy (ctxOk "tx2")
          (Simple.RegisterUser (ctxOk "tx1") [] "alice"
            (marshalStrSlice (some ["dept:eng", "level:3"]))).2 "repo"
          (marshalStrSlice (some ["dept:eng"]))).2 "alice" "repo").1 =
        (Simple.formatAccessLog entry, none) ∧
      entry.Requester = "alice" ∧ entry.Resource = "repo" ∧ entry.Status = "Granted") ∧
    (∃ entry : Simple.AccessLog,
      (Simple.EvaluateAccess (ctxOk "tx3")
        (Simple.CreatePolicy (ctxOk "tx2")
          (Simple.RegisterUser (ctxOk "tx1") [] "alice"
            (marshalStrSlice (some ["dept:eng", "level:3"]))).2 "vault"
          (marshalStrSlice (some ["level:5"]))).2 "alice" "vault").1 =
        (Simple.formatAccessLog entry, none) ∧
      entry.Requester = "alice" ∧ entry.Resource = "vault" ∧ entry.Status = "Denied") := by
  constructor
  · obtain ⟨entry, h1, _, h3, h4, h5, _⟩ :=
      Simple.register_then_evaluate (ctxOk "tx1") (ctxOk "tx2") (ctxOk "tx3") [] "alice" "repo"
        (some ["dept:eng", "level:3"]) (some ["dept:eng"]) rfl rfl rfl rfl rfl
    exact ⟨entry, h1, h3, h4, h5.2 (by decide)⟩
  · obtain ⟨entry, h1, _, h3, h4, _, h6⟩ :=
      Simple.register_then_evaluate (ctxOk "tx1") (ctxOk "tx2") (ctxOk "tx3") [] "alice" "vault"
        (some ["dept:eng", "level:3"]) (some ["level:5"]) rfl rfl rfl rfl rfl
    exact ⟨entry, h1, h3, h4, h6.2 (by decide)⟩

/-! ## Audit keys of distinct transactions -/

/-- C10: for every user and any two distinct transaction ids the log keys
`LOG_<userID>_<t1>` and `LOG_<userID>_<t2>` differ; hence after two successful
calls of `EvaluateAccess` for the same user and resource in transactions `t1` and
`t2`, the ledger holds the entry of each call under its key, and the bytes of the
first entry are those the first call wrote. -/
theorem Simple.distinct_audit_keys (userID t1 t2 : String) (ht : t1 ≠ t2) :
    Simple.logKey userID t1 ≠ Simple.logKey userID t2 ∧
    ∀ (ctx1 ctx2 : Ctx) (st : Ledger) (resource : String),
      ctx1.txID = t1 → ctx2.txID = t2 →
      (Simple.EvaluateAccess ctx1 st userID resource).1.2 = none →
      (Simple.EvaluateAccess ctx2 (Simple.EvaluateAccess ctx1 st userID resource).2
        userID resource).1.2 = none →
      ∃ e1 e2 : Simple.AccessLog,
        (Simple.EvaluateAccess ctx1 st userID resource).1.1 = Simple.formatAccessLog e1 ∧
        (Simple.EvaluateAccess ctx2 (Simple.EvaluateAccess ctx1 st userID resource).2
          userID resource).1.1 = Simple.formatAccessLog e2 ∧
        (Simple.EvaluateAccess ctx1 st userID resource).2.get (Simple.logKey userID t1) =
          some (Simple.marshalAccessLog e1) ∧
        (Simple.EvaluateAccess ctx2 (Simple.EvaluateAccess ctx1 st userID resource).2
          userID resource).2.get (Simple.logKey userID t1) =
          some (Simple.marshalAccessLog e1) ∧
        (Simple.EvaluateAccess ctx2 (Simple.EvaluateAccess ctx1 st userID resource).2
          userID resource).2.get (Simple.logKey userID t2) =
          some (Simple.marshalAccessLog e2) := by
  have hne : Simple.logKey userID t1 ≠ Simple.logKey userID t2 :=
    fun e => ht (logKey_injective userID t1 t2 e)
  refine ⟨hne, ?_⟩
  intro ctx1 ctx2 st resource ht1 ht2 h1 h2
  obtain ⟨ud1, pd1, u1, p1, hu1, hud1, hp1, hpd1, hw1⟩ :=
    Simple.evaluateAccess_success_inv ctx1 st userID resource h1
  have hcall1 := Simple.evaluateAccess_written ctx1 st userID resource ud1 pd1 u1 p1
    hu1 hud1 hp1 hpd1 hw1
  rw [hcall1] at h2 ⊢
  obtain ⟨ud2, pd2, u2, p2, hu2, hud2, hp2, hpd2, hw2⟩ :=
    Simple.evaluateAccess_success_inv ctx2 _ userID resource h2
  have hcall2 := Simple.evaluateAccess_written ctx2 _ userID resource ud2 pd2 u2 p2
    hu2 hud2 hp2 hpd2 hw2
  rw [hcall2]
  refine ⟨Simple.logEntryOf ctx1 u1 p1
      (Simple.statusLoop u1.Attributes.elems p1.Conditions.elems),
    Simple.logEntryOf ctx2 u2 p2
      (Simple.statusLoop u2.Attributes.elems p2.Conditions.elems), rfl, rfl, ?_, ?_, ?_⟩
  · simp only []
    rw [ht1]
    exact Ledger.get_put_same _ _ _
  · simp only []
    rw [ht1, ht2, Ledger.get_put_other _ _ _ _ hne]
    exact Ledger.get_put_same _ _ _
  · simp only []
    rw [ht2]
    exact Ledger.get_put_same _ _ _

/-- Witness of C10: alice is evaluated on the repository in the transactions "tx1"
and "tx2". -/
theorem Simple.distinct_audit_keys_witness :
    Simple.logKey "alice" "tx1" ≠ Simple.logKey "alice" "tx2" ∧
    ∃ e1 e2 : Simple.AccessLog,
      (Simple.EvaluateAccess (ctxOk "tx1") ledgerAlice "alice" "repo").1.1 =
        Simple.formatAccessLog e1 ∧
      (Simple.EvaluateAccess (ctxOk "tx2")
        (Simple.EvaluateAccess (ctxOk "tx1") ledgerAlice "alice" "repo").2
        "alice" "repo").1.1 = Simple.formatAccessLog e2 ∧
      (Simple.EvaluateAccess (ctxOk "tx1") ledgerAlice "alice" "repo").2.get
        (Simple.logKey "alice" "tx1") = some (Simple.marshalAccessLog e1) ∧
      (Simple.EvaluateAccess (ctxOk "tx2")
        (Simple.EvaluateAccess (ctxOk "tx1") ledgerAlice "alice" "repo").2
        "alice" "repo").2.get (Simple.logKey "alice" "tx1") =
        some (Simple.marshalAccessLog e1) ∧
      (Simple.EvaluateAccess (ctxOk "tx2")
        (Simple.EvaluateAccess (ctxOk "tx1") ledgerAlice "alice" "repo").2
        "alice" "repo").2.get (Simple.logKey "alice" "tx2") =
        some (Simple.marshalAccessLog e2) :=
  ⟨(Simple.distinct_audit_keys "alice" "tx1" "tx2" (by decide)).1,
    (Simple.distinct_audit_keys "alice" "tx1" "tx2" (by decide)).2 (ctxOk "tx1") (ctxOk "tx2")
      ledgerAlice "repo" rfl rfl rfl rfl⟩

/-! ## The records of a ledger reached from the empty one -/

namespace Simple

theorem allWritten_put (st : Ledger) (key : String) (v : Bytes) (h : AllWritten st)
    (hw : Written key v) : AllWritten (st.put key v) := by
  intro r hr
  rcases Ledger.mem_put st key v r hr with h1 | h1
  · rw [h1]; exact hw
  · exact h r h1

theorem written_user (st : Ledger) (id : String) (v : Bytes) (h : AllWritten st)
    (hg : st.get ("USER_" ++ id) = some v) : ∃ attrs : StrSlice, v = marshalUser ⟨id, attrs⟩ := by
  have hm := h _ (Ledger.mem_of_get st _ v hg)
  rcases hm with ⟨attrs, id2, hk, hv⟩ | ⟨conds, res, hk, _⟩ | ⟨e, t, hk, _, _⟩
  · have hid : id = id2 := userKey_injective id id2 hk
    exact ⟨attrs, by rw [hid]; exact hv⟩
  · exact absurd hk (userKey_ne_policyKey id res)
  · exact absurd hk (userKey_ne_logKey id e.Requester t)

theorem written_policy (st : Ledger) (res : String) (v : Bytes) (h : AllWritten st)
    (hg : st.get ("POLICY_" ++ res) = some v) :
    ∃ conds : StrSlice, v = marshalPolicy ⟨res, conds⟩ := by
  have hm := h _ (Ledger.mem_of_get st _ v hg)
  rcases hm with ⟨attrs, id, hk, _⟩ | ⟨conds, res2, hk, hv⟩ | ⟨e, t, hk, _, _⟩
  · exact absurd hk.symm (userKey_ne_policyKey id res)
  · have hr : res = res2 := policyKey_injective res res2 hk
    exact ⟨conds, by rw [hr]; exact hv⟩
  · exact absurd hk (policyKey_ne_logKey res e.Requester t)

theorem getState_some (ctx : Ctx) (st : Ledger) (key : String) (v : Bytes)
    (h : GetState ctx st key = (some v, none)) : st.get key = some v := by
  unfold GetState at h
  cases hc : ctx.getErr key with
  | some e => simp [hc] at h
  | none => simpa [hc] using h

theorem evaluateAccess_failure_ledger (ctx : Ctx) (st : Ledger) (userID resource : String)
    (h : (EvaluateAccess ctx st userID resource).1.2 ≠ none) :
    (EvaluateAccess ctx st userID resource).2 = st := by
  unfold EvaluateAccess at h ⊢
  split at h
  · next userData hu =>
    split at h
    · next fst err hud => simp only [hu, hud]
    · next user hud =>
      split at h
      · next policyData hp =>
        split at h
        · next fst err hpd => simp only [hu, hud, hp, hpd]
        · next policy hpd =>
          simp only [hu, hud, hp, hpd, PutState] at h ⊢
          cases hput : ctx.putErr (logKey userID ctx.txID)
              (marshalAccessLog (logEntryOf ctx user policy
                (statusLoop user.Attributes.elems policy.Conditions.elems))) with
          | none => simp [hput] at h
          | some err => rfl
      · next x hnp => simp only [hu, hud]
  · next x hnu => simp only []

theorem registerUser_ledger_cases (ctx : Ctx) (st : Ledger) (userID : String) (input : Bytes) :
    (RegisterUser ctx st userID input).2 = st ∨
    ∃ attrs : StrSlice, (RegisterUser ctx st userID input).2 =
      st.put ("USER_" ++ userID) (marshalUser ⟨userID, attrs⟩) := by
  unfold RegisterUser
  split
  · exact Or.inl rfl
  · next attrs _ =>
    simp only [PutState]
    cases ctx.putErr ("USER_" ++ userID) (marshalUser ⟨userID, attrs⟩) with
    | some err => exact Or.inl rfl
    | none => exact Or.inr ⟨attrs, rfl⟩

theorem createPolicy_ledger_cases (ctx : Ctx) (st : Ledger) (resource : String)
    (input : Bytes) :
    (CreatePolicy ctx st resource input).2 = st ∨
    ∃ conds : StrSlice, (CreatePolicy ctx st resource input).2 =
      st.put ("POLICY_" ++ resource) (marshalPolicy ⟨resource, conds⟩) := by
  unfold CreatePolicy
  split
  · exact Or.inl rfl
  · next conds _ =>
    simp only [PutState]
    cases ctx.putErr ("POLICY_" ++ resource) (marshalPolicy ⟨resource, conds⟩) with
    | some err => exact Or.inl rfl
    | none => exact Or.inr ⟨conds, rfl⟩

end Simple

namespace Simple

theorem evaluateAccess_entry (ctx : Ctx) (st : Ledger) (userID resource : String)
    (h : AllWritten st) (hs : (EvaluateAccess ctx st userID resource).1.2 = none) :
    ∃ attrs conds : StrSlice,
      EvaluateAccess ctx st userID resource =
        ((formatAccessLog (logEntryOf ctx ⟨userID, attrs⟩ ⟨resource, conds⟩
            (statusLoop attrs.elems conds.elems)), none),
          st.put (logKey userID ctx.txID)
            (marshalAccessLog (logEntryOf ctx ⟨userID, attrs⟩ ⟨resource, conds⟩
              (statusLoop attrs.elems conds.elems)))) := by
  obtain ⟨ud, pd, user, policy, hu, hud, hp, hpd, hw⟩ :=
    evaluateAccess_success_inv ctx st userID resource hs
  obtain ⟨attrs, hua⟩ := written_user st userID ud h (getState_some ctx st _ ud hu)
  obtain ⟨conds, hpa⟩ := written_policy st resource pd h (getState_some ctx st _ pd hp)
  have e1 : user = ⟨userID, attrs⟩ := by
    rw [hua, unmarshalUser_marshal] at hud
    exact (congrArg Prod.fst hud).symm
  have e2 : policy = ⟨resource, conds⟩ := by
    rw [hpa, unmarshalPolicy_marshal] at hpd
    exact (congrArg Prod.fst hpd).symm
  subst e1
  subst e2
  exact ⟨attrs, conds, evaluateAccess_written ctx st userID resource ud pd _ _ hu hud hp hpd hw⟩

theorem allWritten_apply (st : Ledger) (op : Op) (h : AllWritten st) :
    AllWritten (Op.apply st op) := by
  cases op with
  | registerUser ctx userID input =>
    rcases registerUser_ledger_cases ctx st userID input with h1 | ⟨attrs, h1⟩
    · simp only [Op.apply, h1]; exact h
    · simp only [Op.apply, h1]
      exact allWritten_put st _ _ h (Or.inl ⟨attrs, userID, rfl, rfl⟩)
  | createPolicy ctx resource input =>
    rcases createPolicy_ledger_cases ctx st resource input with h1 | ⟨conds, h1⟩
    · simp only [Op.apply, h1]; exact h
    · simp only [Op.apply, h1]
      exact allWritten_put st _ _ h (Or.inr (Or.inl ⟨conds, resource, rfl, rfl⟩))
  | evaluateAccess ctx userID resource =>
    by_cases hs : (EvaluateAccess ctx st userID resource).1.2 = none
    · obtain ⟨attrs, conds, he⟩ := evaluateAccess_entry ctx st userID resource h hs
      simp only [Op.apply, he]
      exact allWritten_put st _ _ h (Or.inr (Or.inr ⟨_, ctx.txID, rfl, rfl, rfl⟩))
    · simp only [Op.apply, evaluateAccess_failure_ledger ctx st userID resource hs]
      exact h

theorem allWritten_runOps (ops : List Op) (st : Ledger) (h : AllWritten st) :
    AllWritten (runOps st ops) := by
  induction ops generalizing st with
  | nil => exact h
  | cons op rest ih => exact ih (Op.apply st op) (allWritten_apply st op h)

theorem allWritten_nil : AllWritten [] := by
  intro r hr
  cases hr

end Simple

/-! ## The invariant of the ledger -/

/-- C16: in every ledger reached from the empty one by `RegisterUser`,
`CreatePolicy` and `EvaluateAccess`, the record under `USER_<k>` decodes to a user of
id `k` and the record under `POLICY_<k>` decodes to a policy of resource `k`; keys of
the three namespaces are never equal; and the audit entry a successful
`EvaluateAccess` of user `u` on resource `r` returns and stores has requester `u`
and resource `r`. -/
theorem Simple.reachable_records (ops : List Simple.Op) :
    (∀ k bytes, (Simple.runOps [] ops).get ("USER_" ++ k) = some bytes →
      ∃ attrs : StrSlice, unmarshalUser bytes = (⟨k, attrs⟩, none)) ∧
    (∀ k bytes, (Simple.runOps [] ops).get ("POLICY_" ++ k) = some bytes →
      ∃ conds : StrSlice, unmarshalPolicy bytes = (⟨k, conds⟩, none)) ∧
    (∀ a b t : String, "USER_" ++ a ≠ "POLICY_" ++ b ∧ "USER_" ++ a ≠ Simple.logKey b t ∧
      "POLICY_" ++ a ≠ Simple.logKey b t) ∧
    (∀ (ctx : Ctx) (u r : String),
      (Simple.EvaluateAccess ctx (Simple.runOps [] ops) u r).1.2 = none →
      ∃ e : Simple.AccessLog,
        (Simple.EvaluateAccess ctx (Simple.runOps [] ops) u r).1.1 =
          Simple.formatAccessLog e ∧
        (Simple.EvaluateAccess ctx (Simple.runOps [] ops) u r).2.get
          (Simple.logKey u ctx.txID) = some (Simple.marshalAccessLog e) ∧
        e.Requester = u ∧ e.Resource = r) := by
  have hinv := Simple.allWritten_runOps ops [] Simple.allWritten_nil
  refine ⟨?_, ?_, ?_, ?_⟩
  · intro k bytes hg
    obtain ⟨attrs, hv⟩ := Simple.written_user _ k bytes hinv hg
    exact ⟨attrs, by rw [hv, unmarshalUser_marshal]⟩
  · intro k bytes hg
    obtain ⟨conds, hv⟩ := Simple.written_policy _ k bytes hinv hg
    exact ⟨conds, by rw [hv, unmarshalPolicy_marshal]⟩
  · intro a b t
    exact ⟨userKey_ne_policyKey a b, userKey_ne_logKey a b t, policyKey_ne_logKey a b t⟩
  · intro ctx u r hs
    obtain ⟨attrs, conds, he⟩ := Simple.evaluateAccess_entry ctx _ u r hinv hs
    refine ⟨Simple.logEntryOf ctx ⟨u, attrs⟩ ⟨r, conds⟩
      (Simple.statusLoop attrs.elems conds.elems), ?_, ?_, rfl, rfl⟩
    · rw [he]
    · rw [he]; exact Ledger.get_put_same _ _ _

/-- Witness of C16: in the history of alice and bob, the record of alice decodes to
the user "alice", and the entry of an evaluation of bob on the vault has requester
"bob" and resource "vault". -/
theorem Simple.reachable_records_witness :
    (∃ attrs : StrSlice, unmarshalUser (marshalUser ⟨"alice", some ["dept:eng", "level:3"]⟩) =
      (⟨"alice", attrs⟩, none)) ∧
    (∃ e : Simple.AccessLog,
      (Simple.EvaluateAccess (ctxOk "tx8") (Simple.runOps [] opsAlice) "bob" "vault").1.1 =
        Simple.formatAccessLog e ∧
      (Simple.EvaluateAccess (ctxOk "tx8") (Simple.runOps [] opsAlice) "bob" "vault").2.get
        (Simple.logKey "bob" (ctxOk "tx8").txID) = some (Simple.marshalAccessLog e) ∧
      e.Requester = "bob" ∧ e.Resource = "vault") :=
  ⟨(Simple.reachable_records opsAlice).1 "alice"
      (marshalUser ⟨"alice", some ["dept:eng", "level:3"]⟩) rfl,
    (Simple.reachable_records opsAlice).2.2.2 (ctxOk "tx8") "bob" "vault" rfl⟩

/-! ## Lemmas on the audit scan -/

namespace Simple

theorem unmarshalAccessLog_marshal (e : AccessLog) (hlat : isInt64 e.LatencyMs = true) :
    unmarshalAccessLog (marshalAccessLog e) = (e, none) := by
  have h00 : fieldMatches "docType" "docType" = true := by decide
  have h10 : fieldMatches "requester" "docType" = false := by decide
  have h11 : fieldMatches "requester" "requester" = true := by decide
  have h20 : fieldMatches "resource" "docType" = false := by decide
  have h21 : fieldMatches "resource" "requester" = false := by decide
  have h22 : fieldMatches "resource" "resource" = true := by decide
  have h30 : fieldMatches "status" "docType" = false := by decide
  have h31 : fieldMatches "status" "requester" = false := by decide
  have h32 : fieldMatches "status" "resource" = false := by decide
  have h33 : fieldMatches "status" "status" = true := by decide
  have h40 : fieldMatches "latency_ms" "docType" = false := by decide
  have h41 : fieldMatches "latency_ms" "requester" = false := by decide
  have h42 : fieldMatches "latency_ms" "resource" = false := by decide
  have h43 : fieldMatches "latency_ms" "status" = false := by decide
  have h44 : fieldMatches "latency_ms" "latency_ms" = true := by decide
  have h50 : fieldMatches "timestamp" "docType" = false := by decide
  have h51 : fieldMatches "timestamp" "requester" = false := by decide
  have h52 : fieldMatches "timestamp" "resource" = false := by decide
  have h53 : fieldMatches "timestamp" "status" = false := by decide
  have h54 : fieldMatches "timestamp" "latency_ms" = false := by decide
  have h55 : fieldMatches "timestamp" "timestamp" = true := by decide
  simp [unmarshalAccessLog, marshalAccessLog, decodeAccessLog, decodeAccessLogMember,
    h00, h10, h11, h20, h21, h22, h30, h31, h32, h33, h40, h41, h42, h43, h44, h50, h51, h52, h53, h54, h55,
    decodeString, encodeString, decodeInt64, hlat, saveError, zeroAccessLog]

theorem unmarshalAccessLog_marshal_requester (e : AccessLog) :
    (unmarshalAccessLog (marshalAccessLog e)).1.Requester = e.Requester := by
  have h00 : fieldMatches "docType" "docType" = true := by decide
  have h10 : fieldMatches "requester" "docType" = false := by decide
  have h11 : fieldMatches "requester" "requester" = true := by decide
  have h20 : fieldMatches "resource" "docType" = false := by decide
  have h21 : fieldMatches "resource" "requester" = false := by decide
  have h22 : fieldMatches "resource" "resource" = true := by decide
  have h30 : fieldMatches "status" "docType" = false := by decide
  have h31 : fieldMatches "status" "requester" = false := by decide
  have h32 : fieldMatches "status" "resource" = false := by decide
  have h33 : fieldMatches "status" "status" = true := by decide
  have h40 : fieldMatches "latency_ms" "docType" = false := by decide
  have h41 : fieldMatches "latency_ms" "requester" = false := by decide
  have h42 : fieldMatches "latency_ms" "resource" = false := by decide
  have h43 : fieldMatches "latency_ms" "status" = false := by decide
  have h44 : fieldMatches "latency_ms" "latency_ms" = true := by decide
  have h50 : fieldMatches "timestamp" "docType" = false := by decide
  have h51 : fieldMatches "timestamp" "requester" = false := by decide
  have h52 : fieldMatches "timestamp" "resource" = false := by decide
  have h53 : fieldMatches "timestamp" "status" = false := by decide
  have h54 : fieldMatches "timestamp" "latency_ms" = false := by decide
  have h55 : fieldMatches "timestamp" "timestamp" = true := by decide
  by_cases hlat : isInt64 e.LatencyMs = true
  · simp [unmarshalAccessLog, marshalAccessLog, decodeAccessLog, decodeAccessLogMember,
      h00, h10, h11, h20, h21, h22, h30, h31, h32, h33, h40, h41, h42, h43, h44, h50, h51, h52, h53, h54, h55,
      decodeString, encodeString, decodeInt64, hlat, saveError, zeroAccessLog]
  · simp [unmarshalAccessLog, marshalAccessLog, decodeAccessLog, decodeAccessLogMember,
      h00, h10, h11, h20, h21, h22, h30, h31, h32, h33, h40, h41, h42, h43, h44, h50, h51, h52, h53, h54, h55,
      decodeString, encodeString, decodeInt64, hlat, saveError, zeroAccessLog]

theorem scanLoop_yielded (results : List QueryResult) (logs : List AccessLog) :
    scanLoop (results.map some) logs =
      ScanResult.returned (logs ++ results.map (fun r => (unmarshalAccessLog r.2).1)) none := by
  induction results generalizing logs with
  | nil => simp [scanLoop]
  | cons r rest ih => simp [scanLoop, ih]

end Simple

namespace Simple

theorem selects_accessLog (v : String) (e : AccessLog) :
    selects v (marshalAccessLog e) = true ↔ e.DocType = "accessLog" ∧ e.Requester = v := by
  have hne : ("docType" : String) ≠ "requester" := by decide
  simp only [selects, marshalAccessLog, memberOf, encodeString, if_true, hne, if_false,
    Bool.and_eq_true, decide_eq_true_eq]

theorem selects_user (v : String) (u : User) : selects v (marshalUser u) = false := by
  simp [selects, marshalUser, memberOf]

theorem selects_policy (v : String) (p : AccessPolicy) : selects v (marshalPolicy p) = false := by
  simp [selects, marshalPolicy, memberOf]

theorem selects_written (key : String) (b : Bytes) (v : String) (hw : Written key b)
    (hsel : selects v b = true) :
    ∃ e : AccessLog, b = marshalAccessLog e ∧ e.Requester = v := by
  rcases hw with ⟨attrs, id, _, hv⟩ | ⟨conds, res, _, hv⟩ | ⟨e, t, _, hv, _⟩
  · rw [hv, selects_user] at hsel
    cases hsel
  · rw [hv, selects_policy] at hsel
    cases hsel
  · rw [hv] at hsel
    exact ⟨e, hv, ((selects_accessLog v e).1 hsel).2⟩

end Simple

/-! ## Lemmas on the reading of the query text -/

theorem dropPrefix_append (p t : List Char) : dropPrefix p (p ++ t) = some t := by
  induction p with
  | nil => cases t <;> rfl
  | cons c rest ih => simp [dropPrefix, ih]

theorem scanStringBody_plain (l tail : List Char) (h : l.all plainChar = true) :
    scanStringBody false (l ++ Char.ofNat 34 :: tail) = some (l, tail) := by
  induction l with
  | nil => simp [scanStringBody]
  | cons c rest ih =>
    simp only [List.all_cons, Bool.and_eq_true] at h
    obtain ⟨hc, hrest⟩ := h
    simp only [plainChar, Bool.and_eq_true, Bool.not_eq_true', decide_eq_false_iff_not,
      decide_eq_true_eq] at hc
    obtain ⟨⟨h1, h2⟩, h3⟩ := hc
    have h4 : ¬ c.toNat < 32 := Nat.not_lt.2 h3
    simp only [List.cons_append, scanStringBody, h1, h2, h4, if_false]
    rw [show rest.append (Char.ofNat 34 :: tail) = rest ++ Char.ofNat 34 :: tail from rfl,
      ih hrest]

theorem selectorQuery_data (userID : String) :
    (Simple.selectorQuery userID).data =
      selectorHead.data ++ (userID.data ++ Char.ofNat 34 :: selectorTail.data) := by
  simp only [Simple.selectorQuery, selectorHead, String.data_append, List.append_assoc]
  rfl

theorem parseSelector_plain (userID : String) (h : plainId userID = true) :
    parseSelector (Simple.selectorQuery userID) = some userID := by
  simp only [parseSelector, selectorQuery_data, dropPrefix_append,
    scanStringBody_plain userID.data selectorTail.data h, if_true]

namespace Simple

theorem getAccessLogs_richQuery (other : String → Iterator × Option String) (st : Ledger)
    (userID : String) (h : plainId userID = true) :
    GetAccessLogs (richQuery other st) userID =
      ScanResult.returned
        ((st.filter (fun r => selects userID r.2)).map
          (fun r => (unmarshalAccessLog r.2).1)) none := by
  simp [GetAccessLogs, richQuery, parseSelector_plain userID h, scanLoop_yielded]

theorem scanned_requester (st : Ledger) (v : String) (h : AllWritten st) (e2 : AccessLog)
    (hm : e2 ∈ (st.filter (fun r => selects v r.2)).map
      (fun r => (unmarshalAccessLog r.2).1)) : e2.Requester = v := by
  obtain ⟨rec, hrec, hdec⟩ := List.mem_map.1 hm
  obtain ⟨hin, hsel⟩ := List.mem_filter.1 hrec
  obtain ⟨e3, hb, hr⟩ := selects_written rec.1 rec.2 v (h rec hin) hsel
  rw [← hdec, hb, unmarshalAccessLog_marshal_requester, hr]

end Simple

/-! ## The audit query and the text of its selector -/

/-- For user ids that stand for themselves between two quotes: let a ledger be
reached from the empty one by `RegisterUser`, `CreatePolicy` and `EvaluateAccess`,
a successful `EvaluateAccess` of such a user `u` being one of the calls, with a
latency that is an `int64`.  `GetAccessLogs` of `u` on the final ledger returns the
entry that call wrote whenever the final ledger still holds it, `GetAccessLogs` of
any other such user does not return it, and every entry `GetAccessLogs` of such a
user returns has that user as requester. -/
theorem Simple.getAccessLogs_plain_id (other : String → Iterator × Option String)
    (pre post : List Simple.Op) (ctx : Ctx) (u r : String)
    (hs : (Simple.EvaluateAccess ctx (Simple.runOps [] pre) u r).1.2 = none)
    (hlat : isInt64 ctx.latencyMs = true) (hplain : plainId u = true) :
    ∃ e : Simple.AccessLog,
      (Simple.EvaluateAccess ctx (Simple.runOps [] pre) u r).1.1 = Simple.formatAccessLog e ∧
      (Simple.EvaluateAccess ctx (Simple.runOps [] pre) u r).2.get (Simple.logKey u ctx.txID) =
        some (Simple.marshalAccessLog e) ∧
      (∀ key : String,
        (Simple.runOps (Simple.EvaluateAccess ctx (Simple.runOps [] pre) u r).2 post).get key =
          some (Simple.marshalAccessLog e) →
        ∃ logs, Simple.GetAccessLogs
          (richQuery other
            (Simple.runOps (Simple.EvaluateAccess ctx (Simple.runOps [] pre) u r).2 post)) u =
            Simple.ScanResult.returned logs none ∧ e ∈ logs) ∧
      (∀ v : String, plainId v = true → v ≠ u →
        ∃ logs, Simple.GetAccessLogs
          (richQuery other
            (Simple.runOps (Simple.EvaluateAccess ctx (Simple.runOps [] pre) u r).2 post)) v =
            Simple.ScanResult.returned logs none ∧ e ∉ logs) ∧
      (∀ v : String, plainId v = true →
        ∃ logs, Simple.GetAccessLogs
          (richQuery other
            (Simple.runOps (Simple.EvaluateAccess ctx (Simple.runOps [] pre) u r).2 post)) v =
            Simple.ScanResult.returned logs none ∧
          ∀ e2 ∈ logs, e2.Requester = v) := by
  have hpre := Simple.allWritten_runOps pre [] Simple.allWritten_nil
  obtain ⟨attrs, conds, he⟩ := Simple.evaluateAccess_entry ctx _ u r hpre hs
  have hmid : Simple.AllWritten (Simple.EvaluateAccess ctx (Simple.runOps [] pre) u r).2 :=
    Simple.allWritten_apply _ (Simple.Op.evaluateAccess ctx u r) hpre
  have hfin := Simple.allWritten_runOps post _ hmid
  refine ⟨Simple.logEntryOf ctx ⟨u, attrs⟩ ⟨r, conds⟩
    (Simple.statusLoop attrs.elems conds.elems), ?_, ?_, ?_, ?_, ?_⟩
  · rw [he]
  · rw [he]; exact Ledger.get_put_same _ _ _
  · intro key hkey
    refine ⟨_, Simple.getAccessLogs_richQuery other _ u hplain, ?_⟩
    refine List.mem_map.2 ⟨(key, _), List.mem_filter.2 ⟨Ledger.mem_of_get _ key _ hkey, ?_⟩, ?_⟩
    · exact (Simple.selects_accessLog u _).2 ⟨rfl, rfl⟩
    · exact congrArg Prod.fst (Simple.unmarshalAccessLog_marshal _ hlat)
  · intro v hpv hv
    refine ⟨_, Simple.getAccessLogs_richQuery other _ v hpv, ?_⟩
    intro hm
    exact hv (Simple.scanned_requester _ v hfin _ hm).symm
  · intro v hpv
    exact ⟨_, Simple.getAccessLogs_richQuery other _ v hpv,
      fun e2 hm => Simple.scanned_requester _ v hfin e2 hm⟩

/-- C11, the behaviour of the code: `GetAccessLogs` splices the user id between two
quotes of the query text without escaping it.  For the id with the characters a,
backslash, backslash, b the text is the selector around a literal that denotes a,
backslash, b.  On the ledger reached by registering both users, creating the open
policy and evaluating each user on it with success, the entry of the first user is
still stored, and `GetAccessLogs` of the first user returns the entry of the second
user and nothing else, whatever the state database answers to other query texts. -/
theorem Simple.getAccessLogs_escaped_id (other : String → Iterator × Option String) :
    idDenoted ≠ idEscaped ∧
    parseSelector (Simple.selectorQuery idEscaped) = some idDenoted ∧
    (Simple.EvaluateAccess (ctxOk "tx4") (Simple.runOps [] opsEscaped) idEscaped "open").1 =
      (Simple.formatAccessLog (Simple.logEntryOf (ctxOk "tx4") ⟨idEscaped, some ["dept:eng"]⟩
        ⟨"open", some []⟩ "Granted"), none) ∧
    (Simple.runOps (Simple.runOps [] opsEscaped)
      [Simple.Op.evaluateAccess (ctxOk "tx4") idEscaped "open",
       Simple.Op.evaluateAccess (ctxOk "tx5") idDenoted "open"]).get
        (Simple.logKey idEscaped "tx4") =
      some (Simple.marshalAccessLog (Simple.logEntryOf (ctxOk "tx4")
        ⟨idEscaped, some ["dept:eng"]⟩ ⟨"open", some []⟩ "Granted")) ∧
    Simple.GetAccessLogs
      (richQuery other
        (Simple.runOps (Simple.runOps [] opsEscaped)
          [Simple.Op.evaluateAccess (ctxOk "tx4") idEscaped "open",
           Simple.Op.evaluateAccess (ctxOk "tx5") idDenoted "open"])) idEscaped =
      Simple.ScanResult.returned
        [Simple.logEntryOf (ctxOk "tx5") ⟨idDenoted, some ["dept:ops"]⟩ ⟨"open", some []⟩
          "Granted"] none :=
  ⟨by decide, rfl, rfl, rfl, rfl⟩

/-! ## The error contract of `ReadUser` -/

/-- Counterexample to C12 as stated: the bytes stored for carol are not JSON, so
they do not decode to a user, and `ReadUser` of carol returns a user, the zero
one, and no error. -/
theorem Abac.readUser_returns_on_corrupt_record :
    ledgerCorrupt.get ("USER_" ++ "carol") = some (Bytes.malformed "carol;dept:eng") ∧
    (unmarshalUser (Bytes.malformed "carol;dept:eng")).2 = some jsonSyntaxError ∧
    Abac.ReadUser (ctxOk "tx1") ledgerCorrupt "carol" = (some ⟨"", none⟩, none) :=
  ⟨rfl, rfl, rfl⟩

/-- C12, amended: `ReadUser` fails with "User not found" when the key
`USER_<userID>` is absent; when bytes are read under that key it returns, without
error, the user the decoding of the bytes left, whether or not the decoding
reported an error; and it returns a user only when bytes are stored under the
key. -/
theorem Abac.readUser_contract (ctx : Ctx) (st : Ledger) (userID : String) :
    (st.get ("USER_" ++ userID) = none →
      Abac.ReadUser ctx st userID = (none, some "User not found")) ∧
    (∀ bytes, GetState ctx st ("USER_" ++ userID) = (some bytes, none) →
      Abac.ReadUser ctx st userID = (some (unmarshalUser bytes).1, none)) ∧
    (∀ user, (Abac.ReadUser ctx st userID).1 = some user →
      ∃ bytes, st.get ("USER_" ++ userID) = some bytes ∧ user = (unmarshalUser bytes).1 ∧
        (Abac.ReadUser ctx st userID).2 = none) := by
  refine ⟨?_, ?_, ?_⟩
  · intro h
    unfold Abac.ReadUser GetState
    cases ctx.getErr ("USER_" ++ userID) with
    | some e => rfl
    | none => simp only [h]
  · intro bytes hg
    unfold Abac.ReadUser
    rw [hg]
  · intro user hu
    unfold Abac.ReadUser GetState at hu ⊢
    cases hc : ctx.getErr ("USER_" ++ userID) with
    | some e => simp [hc] at hu
    | none =>
      cases hg : st.get ("USER_" ++ userID) with
      | none => simp [hc, hg] at hu
      | some bytes =>
        simp only [hc, hg, Option.some.injEq] at hu ⊢
        exact ⟨bytes, rfl, hu.symm, trivial⟩

/-- Witness of C12: bob is absent, the bytes of carol do not decode, and alice is
read back. -/
theorem Abac.readUser_contract_witness :
    Abac.ReadUser (ctxOk "tx1") ledgerCorrupt "bob" = (none, some "User not found") ∧
    Abac.ReadUser (ctxOk "tx1") ledgerCorrupt "carol" =
      (some (unmarshalUser (Bytes.malformed "carol;dept:eng")).1, none) ∧
    Abac.ReadUser (ctxOk "tx1") ledgerCorrupt "alice" =
      (some (unmarshalUser (marshalUser ⟨"alice", some ["dept:eng", "level:3"]⟩)).1, none) :=
  ⟨(Abac.readUser_contract (ctxOk "tx1") ledgerCorrupt "bob").1 rfl,
    (Abac.readUser_contract (ctxOk "tx1") ledgerCorrupt "carol").2.1
      (Bytes.malformed "carol;dept:eng") rfl,
    (Abac.readUser_contract (ctxOk "tx1") ledgerCorrupt "alice").2.1
      (marshalUser ⟨"alice", some ["dept:eng", "level:3"]⟩) rfl⟩

/-! ## Lemmas on the ABAC contract -/

theorem Ledger.erase_erase (st : Ledger) (key : String) :
    (st.erase key).erase key = st.erase key := by
  induction st with
  | nil => rfl
  | cons r rest ih =>
    obtain ⟨k0, v0⟩ := r
    by_cases hk : k0 = key
    · simp [Ledger.erase, hk, ih]
    · simp [Ledger.erase, hk, ih]

theorem Ledger.put_put_same (st : Ledger) (key : String) (v : Bytes) :
    (st.put key v).put key v = st.put key v := by
  simp [Ledger.put, Ledger.erase, Ledger.erase_erase]

namespace Abac

theorem contains_eq_matchedLoop (attrs : List String) (cond : String) :
    contains attrs cond = Simple.matchedLoop cond attrs := by
  induction attrs with
  | nil => rfl
  | cons a rest ih =>
    by_cases h : a = cond
    · simp [contains, Simple.matchedLoop, h]
    · simp [contains, Simple.matchedLoop, h, ih]

theorem requestLoop_eq (ctx : Ctx) (st : Ledger) (user : User) (resource : String)
    (conds : List String) :
    requestLoop ctx st user resource conds =
      ((if Simple.statusLoop user.Attributes.elems conds = "Granted" then "Access Granted"
          else "Denied", none),
        logAccess ctx st user.ID resource (Simple.statusLoop user.Attributes.elems conds)) := by
  induction conds with
  | nil => simp [requestLoop, Simple.statusLoop]
  | cons c rest ih =>
    have hd : ("Denied" : String) ≠ "Granted" := by decide
    by_cases h : Simple.matchedLoop c user.Attributes.elems = true
    · simp [requestLoop, Simple.statusLoop, contains_eq_matchedLoop, h, ih]
    · simp [requestLoop, Simple.statusLoop, contains_eq_matchedLoop, h, hd]

theorem requestAccess_found (ctx : Ctx) (st : Ledger) (requestJSON : Bytes)
    (request : AccessRequest) (userBytes policyBytes : Bytes)
    (hreq : unmarshalRequest requestJSON = (request, none))
    (hu : GetState ctx st ("USER_" ++ request.UserID) = (some userBytes, none))
    (hp : GetState ctx st ("POLICY_" ++ request.Resource) = (some policyBytes, none)) :
    RequestAccess ctx st requestJSON =
      requestLoop ctx st (unmarshalUser userBytes).1 request.Resource
        (unmarshalPolicy policyBytes).1.Conditions.elems := by
  simp only [RequestAccess, hreq, hu, hp]

theorem requestAccess_success_inv (ctx : Ctx) (st : Ledger) (requestJSON : Bytes)
    (h : (RequestAccess ctx st requestJSON).1.2 = none) :
    ∃ request userBytes policyBytes,
      unmarshalRequest requestJSON = (request, none) ∧
      GetState ctx st ("USER_" ++ request.UserID) = (some userBytes, none) ∧
      GetState ctx st ("POLICY_" ++ request.Resource) = (some policyBytes, none) := by
  unfold RequestAccess at h
  split at h
  · simp at h
  · next request hreq =>
    split at h
    · next userBytes hu =>
      split at h
      · next policyBytes hp => exact ⟨request, userBytes, policyBytes, hreq, hu, hp⟩
      · simp at h
    · simp at h

theorem userKey_ne_abacLogKey (id userID resource : String) :
    "USER_" ++ id ≠ logKey userID resource :=
  userKey_ne_logKey id userID resource

theorem policyKey_ne_abacLogKey (res userID resource : String) :
    "POLICY_" ++ res ≠ logKey userID resource :=
  policyKey_ne_logKey res userID resource

theorem get_logAccess (ctx : Ctx) (st : Ledger) (userID resource status key : String)
    (hk : key ≠ logKey userID resource) :
    (logAccess ctx st userID resource status).get key = st.get key := by
  simp only [logAccess, PutState]
  split
  · rfl
  · exact Ledger.get_put_other _ _ _ _ hk

theorem getState_logAccess (ctx ctx2 : Ctx) (st : Ledger) (userID resource status key : String)
    (hk : key ≠ logKey userID resource) :
    GetState ctx2 (logAccess ctx st userID resource status) key = GetState ctx2 st key := by
  simp only [GetState, get_logAccess ctx st userID resource status key hk]

end Abac

/-! ## The audit entry of the ABAC contract under repeated requests -/

/-- Counterexample to C13 as stated: on a ledger without audit entries two
requests of alice for the repository both succeed and the ledger then holds one
audit entry, not two; and once alice is registered again without "dept:eng", a
further successful request replaces the entry "Granted" under the same key by an
entry "Denied", the ledger still holding one audit entry. -/
theorem Abac.requestAccess_keeps_one_entry :
    ledgerAbacRepo.auditEntries.length = 0 ∧
    (Abac.RequestAccess (ctxOk "tx1") ledgerAbacRepo requestAliceRepo).1 =
      ("Access Granted", none) ∧
    (Abac.RequestAccess (ctxOk "tx2")
      (Abac.RequestAccess (ctxOk "tx1") ledgerAbacRepo requestAliceRepo).2
      requestAliceRepo).1 = ("Access Granted", none) ∧
    (Abac.RequestAccess (ctxOk "tx2")
      (Abac.RequestAccess (ctxOk "tx1") ledgerAbacRepo requestAliceRepo).2
      requestAliceRepo).2.auditEntries.length = 1 ∧
    (Abac.RequestAccess (ctxOk "tx1") ledgerAbacRepo requestAliceRepo).2.get
      (Abac.logKey "alice" "repo") =
      some (Abac.marshalAccessLog ⟨"alice", "repo", "Granted"⟩) ∧
    (Abac.RequestAccess (ctxOk "tx4")
      (Abac.RegisterUser (ctxOk "tx3")
        (Abac.RequestAccess (ctxOk "tx1") ledgerAbacRepo requestAliceRepo).2 "alice"
        (marshalStrSlice (some ["level:3"]))).2 requestAliceRepo).1 = ("Denied", none) ∧
    (Abac.RequestAccess (ctxOk "tx4")
      (Abac.RegisterUser (ctxOk "tx3")
        (Abac.RequestAccess (ctxOk "tx1") ledgerAbacRepo requestAliceRepo).2 "alice"
        (marshalStrSlice (some ["level:3"]))).2 requestAliceRepo).2.get
      (Abac.logKey "alice" "repo") =
      some (Abac.marshalAccessLog ⟨"alice", "repo", "Denied"⟩) ∧
    (Abac.RequestAccess (ctxOk "tx4")
      (Abac.RegisterUser (ctxOk "tx3")
        (Abac.RequestAccess (ctxOk "tx1") ledgerAbacRepo requestAliceRepo).2 "alice"
        (marshalStrSlice (some ["level:3"]))).2 requestAliceRepo).2.auditEntries.length = 1 :=
  ⟨rfl, rfl, rfl, rfl, rfl, rfl, rfl, rfl⟩

/-- C13, amended: for every ledger, when two calls of `RequestAccess` in a row for
the same user and the same resource both succeed, both hand the same entry to
`PutState` under the one key `LOG_<user id>_<resource>` and return the same
decision; when the write of the first call took effect, the ledger after the
second call is the ledger after the first, so the pair of user and resource has
one audit entry however many evaluations reached the logging step. -/
theorem Abac.requestAccess_same_key (ctx1 ctx2 : Ctx) (st : Ledger) (requestJSON : Bytes)
    (h1 : (Abac.RequestAccess ctx1 st requestJSON).1.2 = none)
    (h2 : (Abac.RequestAccess ctx2 (Abac.RequestAccess ctx1 st requestJSON).2
      requestJSON).1.2 = none) :
    ∃ (userID resource : String) (entry : Abac.AccessLog),
      entry.Requester = userID ∧ entry.Resource = resource ∧
      (Abac.RequestAccess ctx1 st requestJSON).2 =
        (PutState ctx1 st (Abac.logKey userID resource) (Abac.marshalAccessLog entry)).2 ∧
      (Abac.RequestAccess ctx2 (Abac.RequestAccess ctx1 st requestJSON).2 requestJSON).2 =
        (PutState ctx2 (Abac.RequestAccess ctx1 st requestJSON).2
          (Abac.logKey userID resource) (Abac.marshalAccessLog entry)).2 ∧
      (Abac.RequestAccess ctx2 (Abac.RequestAccess ctx1 st requestJSON).2 requestJSON).1 =
        (Abac.RequestAccess ctx1 st requestJSON).1 ∧
      (ctx1.putErr (Abac.logKey userID resource) (Abac.marshalAccessLog entry) = none →
        (Abac.RequestAccess ctx1 st requestJSON).2.get (Abac.logKey userID resource) =
          some (Abac.marshalAccessLog entry) ∧
        (Abac.RequestAccess ctx2 (Abac.RequestAccess ctx1 st requestJSON).2 requestJSON).2 =
          (Abac.RequestAccess ctx1 st requestJSON).2) := by
  obtain ⟨request, ub, pb, hreq, hu, hp⟩ := Abac.requestAccess_success_inv ctx1 st requestJSON h1
  have hcall1 := Abac.requestAccess_found ctx1 st requestJSON request ub pb hreq hu hp
  rw [Abac.requestLoop_eq] at hcall1
  rw [hcall1] at h2 ⊢
  obtain ⟨request2, ub2, pb2, hreq2, hu2, hp2⟩ :=
    Abac.requestAccess_success_inv ctx2 _ requestJSON h2
  have hr : request2 = request := by
    rw [hreq] at hreq2
    exact (congrArg Prod.fst hreq2).symm
  subst hr
  rw [Abac.getState_logAccess ctx1 ctx2 st _ _ _ _ (Abac.userKey_ne_abacLogKey _ _ _)] at hu2
  rw [Abac.getState_logAccess ctx1 ctx2 st _ _ _ _ (Abac.policyKey_ne_abacLogKey _ _ _)] at hp2
  have hub : ub2 = ub := by
    have a1 := Simple.getState_some ctx2 st _ ub2 hu2
    have a2 := Simple.getState_some ctx1 st _ ub hu
    rw [a1] at a2
    exact Option.some.inj a2
  have hpb : pb2 = pb := by
    have a1 := Simple.getState_some ctx2 st _ pb2 hp2
    have a2 := Simple.getState_some ctx1 st _ pb hp
    rw [a1] at a2
    exact Option.some.inj a2
  subst hub
  subst hpb
  have hu3 : GetState ctx2 (Abac.logAccess ctx1 st (unmarshalUser ub2).1.ID request2.Resource
      (Simple.statusLoop (unmarshalUser ub2).1.Attributes.elems
        (unmarshalPolicy pb2).1.Conditions.elems)) ("USER_" ++ request2.UserID) =
      (some ub2, none) := by
    rw [Abac.getState_logAccess ctx1 ctx2 st _ _ _ _ (Abac.userKey_ne_abacLogKey _ _ _)]
    exact hu2
  have hp3 : GetState ctx2 (Abac.logAccess ctx1 st (unmarshalUser ub2).1.ID request2.Resource
      (Simple.statusLoop (unmarshalUser ub2).1.Attributes.elems
        (unmarshalPolicy pb2).1.Conditions.elems)) ("POLICY_" ++ request2.Resource) =
      (some pb2, none) := by
    rw [Abac.getState_logAccess ctx1 ctx2 st _ _ _ _ (Abac.policyKey_ne_abacLogKey _ _ _)]
    exact hp2
  have hcall2 := Abac.requestAccess_found ctx2 _ requestJSON request2 ub2 pb2 hreq hu3 hp3
  rw [Abac.requestLoop_eq] at hcall2
  rw [hcall2]
  refine ⟨(unmarshalUser ub2).1.ID, request2.Resource,
    ⟨(unmarshalUser ub2).1.ID, request2.Resource,
      Simple.statusLoop (unmarshalUser ub2).1.Attributes.elems
        (unmarshalPolicy pb2).1.Conditions.elems⟩, rfl, rfl, rfl, rfl, rfl, ?_⟩
  intro hput
  simp only [Abac.logAccess, PutState, hput]
  refine ⟨Ledger.get_put_same _ _ _, ?_⟩
  split
  · rfl
  · exact Ledger.put_put_same _ _ _

/-- Witness of C13: the second request of alice for the repository leaves the
ledger as the first left it. -/
theorem Abac.requestAccess_same_key_witness :
    (Abac.RequestAccess (ctxOk "tx2")
      (Abac.RequestAccess (ctxOk "tx1") ledgerAbacRepo requestAliceRepo).2
      requestAliceRepo).2 =
      (Abac.RequestAccess (ctxOk "tx1") ledgerAbacRepo requestAliceRepo).2 := by
  obtain ⟨userID, resource, entry, _, _, _, _, _, himp⟩ :=
    Abac.requestAccess_same_key (ctxOk "tx1") (ctxOk "tx2") ledgerAbacRepo requestAliceRepo
      rfl rfl
  exact (himp rfl).2

/-! ## A failed audit write in the ABAC contract -/

/-- C14, the behaviour of the code: when user and policy are found and the ledger
refuses the write of the audit entry, `RequestAccess` returns no error and returns
the decision, "Access Granted" or "Denied", and the ledger holds no entry of the
evaluation. -/
theorem Abac.requestAccess_drops_write_error (ctx : Ctx) (st : Ledger) (requestJSON : Bytes)
    (request : AccessRequest) (userBytes policyBytes : Bytes)
    (hreq : unmarshalRequest requestJSON = (request, none))
    (hu : GetState ctx st ("USER_" ++ request.UserID) = (some userBytes, none))
    (hp : GetState ctx st ("POLICY_" ++ request.Resource) = (some policyBytes, none))
    (hw : ∀ b, ctx.putErr (Abac.logKey (unmarshalUser userBytes).1.ID request.Resource) b ≠
      none) :
    (Abac.RequestAccess ctx st requestJSON).1.2 = none ∧
    ((Abac.RequestAccess ctx st requestJSON).1.1 = "Access Granted" ∨
      (Abac.RequestAccess ctx st requestJSON).1.1 = "Denied") ∧
    (Abac.RequestAccess ctx st requestJSON).2 = st := by
  rw [Abac.requestAccess_found ctx st requestJSON request userBytes policyBytes hreq hu hp,
    Abac.requestLoop_eq]
  refine ⟨rfl, ?_, ?_⟩
  · by_cases hg : Simple.statusLoop (unmarshalUser userBytes).1.Attributes.elems
        (unmarshalPolicy policyBytes).1.Conditions.elems = "Granted"
    · exact Or.inl (by simp only [hg, if_true])
    · exact Or.inr (by simp only [hg, if_false])
  · simp only [Abac.logAccess, PutState]
    split
    · rfl
    · next hnone => exact absurd hnone (hw _)

/-- Witness of C14: alice asks for the repository while the ledger refuses every
write; the call returns "Access Granted" and no error. -/
theorem Abac.requestAccess_drops_write_error_witness :
    Abac.RequestAccess (ctxPutFails "tx1") ledgerAbacRepo requestAliceRepo =
      (("Access Granted", none), ledgerAbacRepo) ∧
    (Abac.RequestAccess (ctxPutFails "tx1") ledgerAbacRepo requestAliceRepo).1.2 = none :=
  ⟨rfl, (Abac.requestAccess_drops_write_error (ctxPutFails "tx1") ledgerAbacRepo
    requestAliceRepo ⟨"alice", "repo"⟩ (marshalUser ⟨"alice", some ["dept:eng", "level:3"]⟩)
    (marshalPolicy ⟨"repo", some ["dept:eng"]⟩) rfl rfl rfl
    (fun _ h => Option.noConfusion h)).1⟩

/-! ## Records that do not decode in the audit scan -/

/-- Counterexample to C15 as stated: the query yields one record, whose value is
not JSON and does not decode; `GetAccessLogs` returns a list of one element, the
zero entry, and no error. -/
theorem Simple.getAccessLogs_keeps_corrupt_record :
    (Simple.unmarshalAccessLog (Bytes.malformed "accessLog;alice")).2 = some jsonSyntaxError ∧
    Simple.GetAccessLogs queryCorrupt "alice" =
      Simple.ScanResult.returned [Simple.zeroAccessLog] none :=
  ⟨rfl, rfl⟩

/-- C15, amended: for every sequence of query results handed to `GetAccessLogs`,
the scan does not abort and returns, without error, one element for each result in
order, the entry the decoding of its value left, also for a value that does not
decode; the length of the returned list is the number of results. -/
theorem Simple.getAccessLogs_one_per_result (getQueryResult : String → Iterator × Option String)
    (userID : String) (results : List QueryResult)
    (hq : getQueryResult (Simple.selectorQuery userID) = (results.map some, none)) :
    Simple.GetAccessLogs getQueryResult userID =
      Simple.ScanResult.returned
        (results.map (fun r => (Simple.unmarshalAccessLog r.2).1)) none ∧
    (results.map (fun r => (Simple.unmarshalAccessLog r.2).1)).length = results.length := by
  constructor
  · simp only [Simple.GetAccessLogs, hq, Simple.scanLoop_yielded, List.nil_append]
  · exact List.length_map _ _

/-- Witness of C15: the stub that yields one record that is not JSON. -/
theorem Simple.getAccessLogs_one_per_result_witness :
    Simple.GetAccessLogs queryCorrupt "alice" =
      Simple.ScanResult.returned
        ([("LOG_alice_tx1", Bytes.malformed "accessLog;alice")].map
          (fun r => (Simple.unmarshalAccessLog r.2).1)) none ∧
    ([("LOG_alice_tx1", Bytes.malformed "accessLog;alice")].map
      (fun r => (Simple.unmarshalAccessLog r.2).1)).length =
      [("LOG_alice_tx1", Bytes.malformed "accessLog;alice")].length :=
  Simple.getAccessLogs_one_per_result queryCorrupt "alice"
    [("LOG_alice_tx1", Bytes.malformed "accessLog;alice")] rfl

/-! ## The three decision engines -/

namespace TempCheck

theorem matchedLoop_eq_simple (cond : String) (attrs : List String) :
    matchedLoop cond attrs = Simple.matchedLoop cond attrs := by
  induction attrs with
  | nil => rfl
  | cons a rest ih => simp [matchedLoop, Simple.matchedLoop, ih]

theorem statusLoop_eq_simple (attrs conds : List String) :
    statusLoop attrs conds = Simple.statusLoop attrs conds := by
  induction conds with
  | nil => rfl
  | cons c rest ih => simp [statusLoop, Simple.statusLoop, matchedLoop_eq_simple, ih]

theorem evaluateAccess_eq_simple (ctx : Ctx) (st : Ledger) (userID resource : String)
    (hu : ctx.getErr ("USER_" ++ userID) = none)
    (hp : ctx.getErr ("POLICY_" ++ resource) = none) :
    EvaluateAccess ctx st userID resource = Simple.EvaluateAccess ctx st userID resource := by
  unfold EvaluateAccess Simple.EvaluateAccess GetState
  simp only [hu, hp]
  cases st.get ("USER_" ++ userID) with
  | none => rfl
  | some userData =>
    simp only []
    cases hud : unmarshalUser userData with
    | mk user err =>
      cases err with
      | some e => rfl
      | none =>
        simp only []
        cases st.get ("POLICY_" ++ resource) with
        | none => rfl
        | some policyData =>
          simp only []
          cases hpd : unmarshalPolicy policyData with
          | mk policy err =>
            cases err with
            | some e => rfl
            | none => simp only [statusLoop_eq_simple]

end TempCheck

/-- C17: for every user and condition list, the loop of `RequestAccess` in
`abac.go` hands to `logAccess` the status the loops of `EvaluateAccess` in
`simple.go` compute, returns "Access Granted" exactly when that status is
"Granted" and "Denied" exactly when it is "Denied", and stores an entry of that
status when the write succeeds; the loops of the packaged copy compute the same
status, and the packaged `EvaluateAccess` returns what `simple.go` returns whenever
the two reads report no error. -/
theorem Abac.engines_agree (user : User) (conds : List String) :
    (∀ (ctx : Ctx) (st : Ledger) (resource : String),
      (Abac.requestLoop ctx st user resource conds).2 =
        Abac.logAccess ctx st user.ID resource
          (Simple.statusLoop user.Attributes.elems conds) ∧
      ((Abac.requestLoop ctx st user resource conds).1 = ("Access Granted", none) ↔
        Simple.statusLoop user.Attributes.elems conds = "Granted") ∧
      ((Abac.requestLoop ctx st user resource conds).1 = ("Denied", none) ↔
        Simple.statusLoop user.Attributes.elems conds = "Denied") ∧
      (ctx.putErr (Abac.logKey user.ID resource)
          (Abac.marshalAccessLog ⟨user.ID, resource,
            Simple.statusLoop user.Attributes.elems conds⟩) = none →
        (Abac.requestLoop ctx st user resource conds).2.get (Abac.logKey user.ID resource) =
          some (Abac.marshalAccessLog ⟨user.ID, resource,
            Simple.statusLoop user.Attributes.elems conds⟩))) ∧
    TempCheck.statusLoop user.Attributes.elems conds =
      Simple.statusLoop user.Attributes.elems conds ∧
    (∀ (ctx : Ctx) (st : Ledger) (userID resource : String),
      ctx.getErr ("USER_" ++ userID) = none → ctx.getErr ("POLICY_" ++ resource) = none →
      TempCheck.EvaluateAccess ctx st userID resource =
        Simple.EvaluateAccess ctx st userID resource) := by
  refine ⟨?_, TempCheck.statusLoop_eq_simple _ _, ?_⟩
  · intro ctx st resource
    rw [Abac.requestLoop_eq]
    have hd : ("Denied" : String) ≠ "Granted" := by decide
    have hne : ("Access Granted" : String) ≠ "Denied" := by decide
    refine ⟨rfl, ?_, ?_, ?_⟩
    · rcases Simple.statusLoop_cases user.Attributes.elems conds with h | h
      · simp [h]
      · simp [h, hd, hne.symm]
    · rcases Simple.statusLoop_cases user.Attributes.elems conds with h | h
      · simp [h, hd.symm, hne]
      · simp [h, hd]
    · intro hput
      simp only [Abac.logAccess, PutState, hput]
      exact Ledger.get_put_same _ _ _
  · intro ctx st userID resource hu hp
    exact TempCheck.evaluateAccess_eq_simple ctx st userID resource hu hp

/-- Witness of C17: alice on the conditions of the repository. -/
theorem Abac.engines_agree_witness :
    (Abac.requestLoop (ctxOk "tx1") ledgerAbacRepo ⟨"alice", some ["dept:eng", "level:3"]⟩
      "repo" ["dept:eng"]).2.get (Abac.logKey "alice" "repo") =
      some (Abac.marshalAccessLog ⟨"alice", "repo",
        Simple.statusLoop ["dept:eng", "level:3"] ["dept:eng"]⟩) ∧
    TempCheck.EvaluateAccess (ctxOk "tx1") ledgerAlice "alice" "repo" =
      Simple.EvaluateAccess (ctxOk "tx1") ledgerAlice "alice" "repo" :=
  ⟨((Abac.engines_agree ⟨"alice", some ["dept:eng", "level:3"]⟩ ["dept:eng"]).1
      (ctxOk "tx1") ledgerAbacRepo "repo").2.2.2 rfl,
    (Abac.engines_agree ⟨"alice", some ["dept:eng", "level:3"]⟩ ["dept:eng"]).2.2
      (ctxOk "tx1") ledgerAlice "alice" "repo" rfl rfl⟩

/-! ## A failing `Next` in the audit scan -/

namespace Simple

theorem scanLoop_next_error (yielded : List QueryResult) (rest : Iterator)
    (logs : List AccessLog) :
    scanLoop (yielded.map some ++ none :: rest) logs = ScanResult.nilDereference := by
  induction yielded generalizing logs with
  | nil => rfl
  | cons r more ih => simp [scanLoop, ih]

end Simple

/-- C18, the behaviour of the code: when the query reports no error and a call of
`Next` made while `HasNext` holds reports an error and yields the nil result,
`GetAccessLogs` dereferences that nil result and returns no list, whatever was
yielded before. -/
theorem Simple.getAccessLogs_nil_dereference
    (getQueryResult : String → Iterator × Option String) (userID : String)
    (yielded : List QueryResult) (rest : Iterator)
    (hq : getQueryResult (Simple.selectorQuery userID) =
      (yielded.map some ++ none :: rest, none)) :
    Simple.GetAccessLogs getQueryResult userID = Simple.ScanResult.nilDereference := by
  simp only [Simple.GetAccessLogs, hq, Simple.scanLoop_next_error]

/-- Witness of C18: the stub that yields one record and then fails in `Next`. -/
theorem Simple.getAccessLogs_nil_dereference_witness :
    Simple.GetAccessLogs queryNextFails "alice" = Simple.ScanResult.nilDereference :=
  Simple.getAccessLogs_nil_dereference queryNextFails "alice"
    [("LOG_alice_tx1", Bytes.malformed "accessLog;alice")] [] rfl
